import Mathlib

/-!
Verification development for the todoist-ai-ranker repository.

Shallow embedding of the Python sources:
  src/models.py          — data models and pydantic field validators
  src/ai_ranker.py       — batched AI ranking / inbox organization orchestration
  src/todoist_client.py  — rate limiter, retry wrapper, batch write operations
  src/main.py            — date normalization/equivalence and Today-view
                           selection & reconciliation

External effects (the OpenAI call, the Todoist HTTP calls, the wall clock)
are modelled as explicit oracle parameters; machine integers are `Int`/`Nat`
(no overflow is relevant here: Python ints are unbounded); fallible code
returns `Option`.
-/

/-! ## String helpers mirroring the Python str operations used by the source -/

/-- `s.upper()` on the underlying characters. -/
def pyUpper (s : String) : String := String.mk (s.toList.map Char.toUpper)

/-- `s.lower()` on the underlying characters. -/
def pyLower (s : String) : String := String.mk (s.toList.map Char.toLower)

/-- `s.strip()`: drop leading and trailing whitespace. -/
def trimChars (l : List Char) : List Char :=
  ((l.dropWhile Char.isWhitespace).reverse.dropWhile Char.isWhitespace).reverse

/-- `s.strip()` lifted to `String`. -/
def pyStrip (s : String) : String := String.mk (trimChars s.toList)

/-- Python truthiness of a string: empty strings are falsy. -/
def pyFalsyStr (s : String) : Bool := s.toList.isEmpty

/-- Python truthiness of an optional string (`None` and `""` are falsy). -/
def pyFalsyOpt : Option String → Bool
  | none => true
  | some s => pyFalsyStr s

/-- `needle` is a prefix of the second list (Python `str.startswith` on chars). -/
def isPrefixChars : List Char → List Char → Bool
  | [], _ => true
  | _ :: _, [] => false
  | a :: as, b :: bs => a == b && isPrefixChars as bs

/-- `needle in hay` (Python substring containment) on character lists. -/
def containsChars (needle : List Char) : List Char → Bool
  | [] => isPrefixChars needle []
  | c :: rest => isPrefixChars needle (c :: rest) || containsChars needle rest

/-- Python `sub in s` substring test. -/
def containsSub (hay sub : String) : Bool := containsChars sub.toList hay.toList

/-! ## src/models.py — data model -/

/-- A validated priority level (`priority_level` after validation is one of
"P1", "P2", "P3", "P4"). -/
inductive PLevel
  | P1 | P2 | P3 | P4
  deriving DecidableEq

/-- The fixed level-to-numeric table shared by `TaskPriority.todoist_priority`
and `InboxOrganization.todoist_priority` (P1→4, P2→3, P3→2, P4→1). -/
def PLevel.todoistValue : PLevel → Int
  | .P1 => 4
  | .P2 => 3
  | .P3 => 2
  | .P4 => 1

/-- Recognize an exact valid level string (membership in
`['P1', 'P2', 'P3', 'P4']`). -/
def levelOfString (s : String) : Option PLevel :=
  if s = "P1" then some .P1
  else if s = "P2" then some .P2
  else if s = "P3" then some .P3
  else if s = "P4" then some .P4
  else none

/-- `models.TodoistDueDate`. -/
structure TodoistDueDate where
  date : String
  is_recurring : Bool := false
  datetime : Option String := none
  string : Option String := none
  timezone : Option String := none
  deriving DecidableEq

/-- `models.TodoistTask`. -/
structure TodoistTask where
  id : String
  content : String
  description : String := ""
  project_id : String
  priority : Int
  due : Option TodoistDueDate := none
  labels : List String := []
  created_at : String
  url : String
  deriving DecidableEq

/-- `TodoistTask.is_recurring`: the task has a due date flagged recurring. -/
def TodoistTask.is_recurring (t : TodoistTask) : Bool :=
  match t.due with
  | none => false
  | some d => d.is_recurring

/-- `models.TaskPriority` after successful pydantic validation:
`priority_level` is one of the four levels and the score passed the
`ge=0, le=100` bound checks. -/
structure TaskPriority where
  task_id : String
  priority_score : Int
  priority_level : PLevel
  reasoning : String
  deriving DecidableEq

/-- `TaskPriority.todoist_priority`. -/
def TaskPriority.todoist_priority (p : TaskPriority) : Int :=
  p.priority_level.todoistValue

/-- A raw `rankings` array element as received from the model, before
validation; `none` fields are missing from the JSON object. -/
structure RawRanking where
  task_id : Option String := none
  priority_score : Option Int := none
  priority_level : Option String := none
  reasoning : Option String := none
  deriving DecidableEq

/-- `TaskPriority.validate_priority_level`: uppercase the value and require
exact membership in `['P1','P2','P3','P4']`; anything else raises
(`none` = the element is rejected). -/
def TaskPriority.validate_priority_level (v : String) : Option PLevel :=
  levelOfString (pyUpper v)

/-- Pydantic validation of one `rankings` element into `TaskPriority`:
all four fields are required, the score must lie in [0, 100], and the
level must validate strictly. -/
def TaskPriority.validate (r : RawRanking) : Option TaskPriority :=
  match r.task_id, r.priority_score, r.priority_level, r.reasoning with
  | some tid, some sc, some lv, some rs =>
    if 0 ≤ sc ∧ sc ≤ 100 then
      match TaskPriority.validate_priority_level lv with
      | some l => some ⟨tid, sc, l, rs⟩
      | none => none
    else none
  | _, _, _, _ => none

/-- `models.InboxOrganization` after validation. -/
structure InboxOrganization where
  task_id : String
  priority_score : Int
  priority_level : PLevel
  project_id : Option String
  project_name : Option String
  due_date : Option String
  reasoning : String
  deriving DecidableEq

/-- `InboxOrganization.todoist_priority` (same fixed table; the `.get`
default of 1 is unreachable because validated levels are always valid). -/
def InboxOrganization.todoist_priority (o : InboxOrganization) : Int :=
  o.priority_level.todoistValue

/-- A raw `organizations` array element. The outer `Option` is field
presence, the inner `Option` is JSON null. -/
structure RawOrganization where
  task_id : Option String := none
  priority_score : Option (Option Int) := none
  priority_level : Option String := none
  project_id : Option (Option String) := none
  project_name : Option (Option String) := none
  due_date : Option (Option String) := none
  reasoning : Option (Option String) := none
  deriving DecidableEq

/-- `InboxOrganization.validate_priority_level`: empty → P4; else uppercase
and strip; exact valid levels pass through; otherwise the first of
P1..P4 occurring as a substring is extracted; otherwise P4. -/
def InboxOrganization.validate_priority_level (v : String) : PLevel :=
  if pyFalsyStr v then .P4
  else
    let vUp := pyStrip (pyUpper v)
    match levelOfString vUp with
    | some l => l
    | none =>
      if containsSub vUp "P1" then .P1
      else if containsSub vUp "P2" then .P2
      else if containsSub vUp "P3" then .P3
      else if containsSub vUp "P4" then .P4
      else .P4

/-- `InboxOrganization.validate_priority_score` (`mode='before'`): null → 50,
otherwise clamp to [0, 100]. -/
def InboxOrganization.validate_priority_score : Option Int → Int
  | none => 50
  | some n => max 0 (min 100 n)

/-- The shared shape of `validate_project_id` / `validate_project_name` /
`validate_due_date`: a missing field defaults to None; null, the literal
string "null", and the empty string normalize to None. -/
def normNullString : Option (Option String) → Option String
  | none => none
  | some none => none
  | some (some s) => if s = "null" ∨ s = "" then none else some s

/-- `InboxOrganization.validate_reasoning`: a missing field takes the pydantic
default `""` (validators do not run on defaults); null-like present values
become "No reasoning provided". -/
def normReasoning : Option (Option String) → String
  | none => ""
  | some none => "No reasoning provided"
  | some (some s) => if s = "null" ∨ s = "" then "No reasoning provided" else s

/-- Pydantic validation of one `organizations` element: `task_id`,
`priority_score` and `priority_level` are required fields (missing →
rejected); all present values are coerced by the field validators. -/
def InboxOrganization.validate (r : RawOrganization) : Option InboxOrganization :=
  match r.task_id, r.priority_score, r.priority_level with
  | some tid, some sc, some lv =>
    some { task_id := tid
           priority_score := InboxOrganization.validate_priority_score sc
           priority_level := InboxOrganization.validate_priority_level lv
           project_id := normNullString r.project_id
           project_name := normNullString r.project_name
           due_date := normNullString r.due_date
           reasoning := normReasoning r.reasoning }
  | _, _, _ => none

/-- `PriorityRankings.get_ranking_for_task`: first element with the given id. -/
def get_ranking_for_task (rankings : List TaskPriority) (task_id : String) :
    Option TaskPriority :=
  rankings.find? (fun r => r.task_id == task_id)

/-! ## src/ai_ranker.py — batched orchestration

The OpenAI call for batch number `i` is an oracle `respond i`. Its result is
classified by the code path it triggers in `rank_tasks` /
`organize_inbox_tasks`:
  * `callFailure` — `_call_openai` raised (retry budget exhausted, ...):
    caught by the outer per-batch `except`, batch skipped;
  * `jsonError` — `json.loads` raised `JSONDecodeError`: batch skipped;
  * `parsed none` — valid JSON without the expected top-level array;
  * `parsed (some elems)` — valid JSON whose top-level array holds the raw
    elements `elems`. -/
inductive LMResponse (α : Type)
  | callFailure
  | jsonError
  | parsed (payload : Option (List α))

/-- `range(0, len, step)` for a positive step: the multiples of `step`
below `len`. (Python raises on a zero step, so step 0 yields no starts.) -/
def chunkStarts (len step : Nat) : List Nat :=
  if step = 0 then []
  else (List.range ((len + step - 1) / step)).map (fun k => k * step)

/-- `tasks[i:i+batch_size]` chunking from the loop
`for i in range(0, len(tasks), batch_size)`; the slice `l[i:i+bs]`
is `(l.drop i).take bs`. -/
def chunkList (batchSize : Nat) (l : List α) : List (List α) :=
  (chunkStarts l.length batchSize).map (fun i => (l.drop i).take batchSize)

/-- Pydantic whole-collection validation: succeeds with all validated
elements iff every element validates. -/
def validateAll (f : α → Option β) : List α → Option (List β)
  | [] => some []
  | x :: xs =>
    match f x, validateAll f xs with
    | some y, some ys => some (y :: ys)
    | _, _ => none

/-- The contribution of one batch to `rank_tasks`: pydantic validates the
whole `PriorityRankings` collection; any failure (missing `rankings` key or
any invalid element) logs and skips the entire batch. -/
def rankBatchResult (resp : LMResponse RawRanking) : List TaskPriority :=
  match resp with
  | .callFailure => []
  | .jsonError => []
  | .parsed none => []
  | .parsed (some elems) =>
    match validateAll TaskPriority.validate elems with
    | some tps => tps
    | none => []

/-- `AIRanker.rank_tasks`: split into chunks, query the model per chunk,
merge every chunk's (possibly empty) contribution in input order. -/
def rank_tasks (respond : Nat → LMResponse RawRanking)
    (tasks : List TodoistTask) (batchSize : Nat) : List TaskPriority :=
  ((chunkList batchSize tasks).enum.map
    (fun p => rankBatchResult (respond p.1))).flatten

/-- The `missing_tasks` list of the `ranking_mismatch` log entry:
input ids that received no ranking (`task_ids - ranked_ids`). -/
def rankMissingIds (respond : Nat → LMResponse RawRanking)
    (tasks : List TodoistTask) (batchSize : Nat) : List String :=
  ((tasks.map (fun t => t.id)).dedup).filter
    (fun i => !(rank_tasks respond tasks batchSize).any (fun r => r.task_id == i))

/-- The `extra_tasks` list of the `ranking_mismatch` log entry:
returned ids absent from the input (`ranked_ids - task_ids`). -/
def rankExtraIds (respond : Nat → LMResponse RawRanking)
    (tasks : List TodoistTask) (batchSize : Nat) : List String :=
  (((rank_tasks respond tasks batchSize).map (fun r => r.task_id)).dedup).filter
    (fun i => !tasks.any (fun t => t.id == i))

/-- The contribution of one batch to `organize_inbox_tasks`: whole-collection
validation first; on failure, if the `organizations` key is present, each
element is validated independently and the valid ones are kept. -/
def orgBatchResult (resp : LMResponse RawOrganization) : List InboxOrganization :=
  match resp with
  | .callFailure => []
  | .jsonError => []
  | .parsed none => []
  | .parsed (some elems) =>
    match validateAll InboxOrganization.validate elems with
    | some all => all
    | none => elems.filterMap InboxOrganization.validate

/-- `AIRanker.organize_inbox_tasks` (the candidate `projects` only shape the
prompt, not the result semantics). -/
def organize_inbox_tasks (respond : Nat → LMResponse RawOrganization)
    (tasks : List TodoistTask) (batchSize : Nat) : List InboxOrganization :=
  ((chunkList batchSize tasks).enum.map
    (fun p => orgBatchResult (respond p.1))).flatten

/-- The `extra_tasks` list of the `organization_mismatch` log entry. -/
def orgExtraIds (respond : Nat → LMResponse RawOrganization)
    (tasks : List TodoistTask) (batchSize : Nat) : List String :=
  (((organize_inbox_tasks respond tasks batchSize).map
      (fun o => o.task_id)).dedup).filter
    (fun i => !tasks.any (fun t => t.id == i))

/-! ## src/todoist_client.py — retry wrapper (tenacity) -/

/-- The Python exception classes relevant to the two `@retry` decorators. -/
inductive PyExc
  | requestException
  | httpError
  | jsonDecodeError
  | valueError
  | otherExc
  deriving DecidableEq

/-- `retry_if_exception_type((RequestException, HTTPError))` on
`TodoistClient._api_call_with_retry`. -/
def todoistRetryable : PyExc → Bool
  | .requestException => true
  | .httpError => true
  | _ => false

/-- `retry_if_exception_type((Exception,))` on `AIRanker._call_openai`:
every exception is retryable. -/
def openaiRetryable : PyExc → Bool := fun _ => true

/-- Outcome of a tenacity-wrapped call: success, an immediately re-raised
non-retryable exception, or retry exhaustion surfacing the last failure. -/
inductive RetryOutcome (α : Type)
  | ok (a : α)
  | raised (e : PyExc)
  | exhausted (last : PyExc)
  deriving DecidableEq

/-- Tenacity loop: attempt number `k` (0-based) with `left` attempts allowed,
`attempt` being the oracle for each attempt's outcome. A non-retryable
exception re-raises at once; a retryable one retries while attempts remain
(`stop_after_attempt`) and otherwise surfaces as exhaustion. -/
def retryAux (retryable : PyExc → Bool) (attempt : Nat → Except PyExc α) :
    Nat → Nat → RetryOutcome α
  | _, 0 => .exhausted .otherExc
  | k, left + 1 =>
    match attempt k with
    | .ok a => .ok a
    | .error e =>
      if retryable e then
        match left with
        | 0 => .exhausted e
        | _ + 1 => retryAux retryable attempt (k + 1) left
      else .raised e

/-- A tenacity-decorated call with `stop_after_attempt(maxAttempts)`
(`maxAttempts = 3` at both decoration sites). -/
def retryCall (retryable : PyExc → Bool) (maxAttempts : Nat)
    (attempt : Nat → Except PyExc α) : RetryOutcome α :=
  retryAux retryable attempt 0 maxAttempts

/-! ## src/todoist_client.py — RateLimiter

Wall-clock time is `ℚ`; `time.sleep(x)` advances the clock by exactly `x`.
`waitAux` is `RateLimiter.wait_if_needed` with the self-recursive call
unrolled on fuel; `none` models the `IndexError` raised by `self.calls[0]`
on an empty deque (reachable only for `max_calls = 0`) or fuel exhaustion
(shown unreachable below). -/

/-- The `while self.calls and self.calls[0] < now - self.period:
self.calls.popleft()` eviction loop. -/
def evictOld (period now : ℚ) (calls : List ℚ) : List ℚ :=
  calls.dropWhile (fun t => decide (t < now - period))

/-- `RateLimiter.wait_if_needed`, fuelled. Returns the new timestamp queue
and the time at which the call finally proceeds. -/
def waitAux (maxCalls : Nat) (period : ℚ) :
    Nat → List ℚ → ℚ → Option (List ℚ × ℚ)
  | 0, _, _ => none
  | fuel + 1, calls, now =>
    let calls' := evictOld period now calls
    if maxCalls ≤ calls'.length then
      match calls' with
      | [] => none
      | c0 :: _ =>
        let sleepTime := period - (now - c0) + 1 / 10
        if 0 < sleepTime then
          waitAux maxCalls period fuel calls' (now + sleepTime)
        else some (calls' ++ [now], now)
    else some (calls' ++ [now], now)

/-- `RateLimiter.wait_if_needed` with enough fuel for the recursion depth. -/
def wait_if_needed (maxCalls : Nat) (period : ℚ) (calls : List ℚ) (now : ℚ) :
    Option (List ℚ × ℚ) :=
  waitAux maxCalls period (calls.length + 1) calls now

/-! ## src/todoist_client.py — batch write operations

The remote side of one write (`requests.post` + `raise_for_status`) is an
oracle returning whether the write succeeded; the catch-all `except` in the
single-item updates turns any failure into `False`. -/

/-- `TodoistClient.update_task_priority`: reject out-of-range priorities
before the dry-run check; dry runs always succeed. -/
def update_task_priority (api : String → Int → Bool)
    (task_id : String) (priority : Int) (dry_run : Bool) : Bool :=
  if ¬ (1 ≤ priority ∧ priority ≤ 4) then false
  else if dry_run then true
  else api task_id priority

/-- `TodoistClient.update_task_due_date`: a falsy `due_string` (None or "")
sends the removal sentinel "no date". -/
def update_task_due_date (api : String → String → Bool)
    (task_id : String) (due_string : Option String) (dry_run : Bool) : Bool :=
  if dry_run then true
  else
    let payload := match due_string with
      | some s => if pyFalsyStr s then "no date" else s
      | none => "no date"
    api task_id payload

/-- The `{'successful': int, 'failed': int}` result dict. -/
structure BatchResult where
  successful : Nat
  failed : Nat
  deriving DecidableEq

/-- `TodoistClient.batch_update_priorities`: every tuple is attempted in
order; each outcome increments exactly one counter. -/
def batch_update_priorities (api : String → Int → Bool)
    (updates : List (String × Int)) (dry_run : Bool) : BatchResult :=
  updates.foldl
    (fun acc u =>
      if update_task_priority api u.1 u.2 dry_run then
        { acc with successful := acc.successful + 1 }
      else
        { acc with failed := acc.failed + 1 })
    ⟨0, 0⟩

/-- `TodoistClient.batch_update_due_dates`. -/
def batch_update_due_dates (api : String → String → Bool)
    (updates : List (String × Option String)) (dry_run : Bool) : BatchResult :=
  updates.foldl
    (fun acc u =>
      if update_task_due_date api u.1 u.2 dry_run then
        { acc with successful := acc.successful + 1 }
      else
        { acc with failed := acc.failed + 1 })
    ⟨0, 0⟩

/-! ## src/main.py — Today-view selection (organize_today_view, step 4)

Python's `list.sort(key=..., reverse=True)` is a stable descending sort; it
is modelled by a stable insertion sort on the same key (stable sorts on the
same key and order agree on every input). -/

/-- Insert before the first element whose key is ≤ the new element's key
(`le y x` reads: the key of `y` is ≤ the key of `x`); this keeps earlier
input elements first among equal keys. -/
def insertDescBy (le : α → α → Bool) (x : α) : List α → List α
  | [] => [x]
  | y :: ys => if le y x then x :: y :: ys else y :: insertDescBy le x ys

/-- Stable descending sort by the comparator `le`. -/
def sortDescBy (le : α → α → Bool) : List α → List α
  | [] => []
  | x :: xs => insertDescBy le x (sortDescBy le xs)

/-- Comparator for `key=lambda x: x[1].priority_score`. -/
def scoreLE (a b : TodoistTask × TaskPriority) : Bool :=
  a.2.priority_score ≤ b.2.priority_score

/-- `task_map = {t.id: t for t in all_tasks}` lookup: in a dict
comprehension, a later task with the same id overwrites an earlier one. -/
def taskMapLookup (tasks : List TodoistTask) (task_id : String) :
    Option TodoistTask :=
  tasks.reverse.find? (fun t => t.id == task_id)

/-- One `tasks_by_priority` bucket: rankings whose id is in `task_map`,
paired with the mapped task, in ranking order. -/
def bucketPairs (tasks : List TodoistTask) (rankings : List TaskPriority)
    (lvl : PLevel) : List (TodoistTask × TaskPriority) :=
  rankings.filterMap (fun r =>
    if r.priority_level = lvl then
      (taskMapLookup tasks r.task_id).map (fun t => (t, r))
    else none)

/-- A bucket after its in-place stable sort by score, descending. -/
def sortedBucket (tasks : List TodoistTask) (rankings : List TaskPriority)
    (lvl : PLevel) : List (TodoistTask × TaskPriority) :=
  sortDescBy scoreLE (bucketPairs tasks rankings lvl)

/-- The inner `for task, ranking in tasks_by_priority[priority_level]` loop:
append elements while the output is below `limit`. -/
def appendUpTo (limit : Nat) (acc : List α) : List α → List α
  | [] => acc
  | x :: xs =>
    if limit ≤ acc.length then acc else appendUpTo limit (acc ++ [x]) xs

/-- The outer `for priority_level in ['P1', 'P2', 'P3', 'P4']` loop with its
early break once the output reaches `limit`. -/
def selectLoop (limit : Nat) (acc : List α) : List (List α) → List α
  | [] => acc
  | b :: bs =>
    if limit ≤ acc.length then acc
    else selectLoop limit (appendUpTo limit acc b) bs

/-- Step 4 of `organize_today_view`: the selected (task, ranking) pairs. -/
def selectedPairs (tasks : List TodoistTask) (rankings : List TaskPriority)
    (limit : Nat) : List (TodoistTask × TaskPriority) :=
  selectLoop limit []
    [sortedBucket tasks rankings .P1, sortedBucket tasks rankings .P2,
     sortedBucket tasks rankings .P3, sortedBucket tasks rankings .P4]

/-- `selected_tasks` as produced by step 4. -/
def selectTodayTasks (tasks : List TodoistTask) (rankings : List TaskPriority)
    (limit : Nat) : List TodoistTask :=
  (selectedPairs tasks rankings limit).map Prod.fst

/-! ## src/main.py — Today-view reconciliation (steps 6–9) -/

/-- Step 6: `(task.id, "today")` due-date updates for the non-recurring
selected tasks (recurring tasks are skipped). -/
def todayDueUpdates (selected : List TodoistTask) : List (String × Option String) :=
  (selected.filter (fun t => !t.is_recurring)).map (fun t => (t.id, some "today"))

/-- Step 7: `(task.id, "tomorrow")` updates for the non-recurring tasks being
removed from Today (recurring tasks are skipped). -/
def tomorrowDueUpdates (to_remove : List TodoistTask) :
    List (String × Option String) :=
  (to_remove.filter (fun t => !t.is_recurring)).map
    (fun t => (t.id, some "tomorrow"))

/-- Step 8: priority updates for every selected task (recurring or not) whose
current priority differs from its ranked priority. -/
def priorityUpdates (selected : List TodoistTask)
    (rankings : List TaskPriority) : List (String × Int) :=
  selected.filterMap (fun t =>
    match get_ranking_for_task rankings t.id with
    | some r =>
      if t.priority ≠ r.todoist_priority then some (t.id, r.todoist_priority)
      else none
    | none => none)

/-- Step 9, before the final sort: `ordered_tasks_list` entries
`(task, todoist_priority, priority_score)` for every selected task with a
ranking. -/
def orderedTasksRaw (selected : List TodoistTask)
    (rankings : List TaskPriority) : List (TodoistTask × Int × Int) :=
  selected.filterMap (fun t =>
    (get_ranking_for_task rankings t.id).map
      (fun r => (t, r.todoist_priority, r.priority_score)))

/-- Comparator for `key=lambda x: (x['priority'], x['score'])`
(lexicographic tuple order). -/
def prioScoreLE (a b : TodoistTask × Int × Int) : Bool :=
  a.2.1 < b.2.1 || (a.2.1 = b.2.1 && a.2.2 ≤ b.2.2)

/-- Step 9: `final_ordered_tasks`, the reorder list sent to the API. -/
def finalOrderedTasks (selected : List TodoistTask)
    (rankings : List TaskPriority) : List TodoistTask :=
  (sortDescBy prioScoreLE (orderedTasksRaw selected rankings)).map
    (fun x => x.1)

/-! ## src/main.py — date normalization and equivalence

`datetime.date` is modelled by a proleptic-Gregorian (year, month, day)
triple; `timedelta(days=n)` is the day-successor function iterated, and
`strftime('%Y-%m-%d')` / `strptime(s, '%Y-%m-%d')` are zero-padded decimal
formatting and its (lenient, like strptime: 1–4 year digits, 1–2 month/day
digits, calendar-validated) inverse. -/

/-- Gregorian leap-year rule (as in `datetime`). -/
def isLeapYear (y : Nat) : Bool :=
  y % 4 = 0 && (y % 100 ≠ 0 || y % 400 = 0)

/-- Days in a month of a given year. -/
def daysInMonth (y m : Nat) : Nat :=
  if m = 2 then (if isLeapYear y then 29 else 28)
  else if m = 4 ∨ m = 6 ∨ m = 9 ∨ m = 11 then 30
  else 31

/-- A `datetime.date` value. -/
structure PDate where
  year : Nat
  month : Nat
  day : Nat
  deriving DecidableEq

/-- A real calendar date (what `datetime.date` can hold, `MINYEAR = 1`). -/
def PDate.valid (d : PDate) : Bool :=
  1 ≤ d.year && 1 ≤ d.month && d.month ≤ 12 && 1 ≤ d.day &&
    d.day ≤ daysInMonth d.year d.month

/-- The next calendar day. -/
def nextDay (d : PDate) : PDate :=
  if d.day < daysInMonth d.year d.month then ⟨d.year, d.month, d.day + 1⟩
  else if d.month < 12 then ⟨d.year, d.month + 1, 1⟩
  else ⟨d.year + 1, 1, 1⟩

/-- The previous calendar day. -/
def prevDay (d : PDate) : PDate :=
  if 1 < d.day then ⟨d.year, d.month, d.day - 1⟩
  else if 1 < d.month then ⟨d.year, d.month - 1, daysInMonth d.year (d.month - 1)⟩
  else ⟨d.year - 1, 12, 31⟩

/-- `d + timedelta(days=n)`. -/
def addDays (d : PDate) : Nat → PDate
  | 0 => d
  | n + 1 => addDays (nextDay d) n

/-- `d - timedelta(days=n)`. -/
def subDays (d : PDate) : Nat → PDate
  | 0 => d
  | n + 1 => subDays (prevDay d) n

/-- The decimal digit character for `n < 10`. -/
def digitChar (n : Nat) : Char := Char.ofNat (48 + n)

/-- Decimal digit characters of `n`, least significant first; `fuel` bounds
the recursion depth (any `fuel > n` is enough). -/
def natDigitsRev : Nat → Nat → List Char
  | 0, _ => []
  | fuel + 1, n =>
    if n < 10 then [digitChar n]
    else digitChar (n % 10) :: natDigitsRev fuel (n / 10)

/-- Decimal digit characters of `n`, most significant first. -/
def natDigits (n : Nat) : List Char := (natDigitsRev (n + 1) n).reverse

/-- Numeric value of a digit string (the value `strptime` extracts). -/
def digitsToNat (l : List Char) : Nat :=
  l.foldl (fun a c => a * 10 + (c.toNat - 48)) 0

/-- Zero-padding to a minimum width. -/
def padLeft (c : Char) (w : Nat) (l : List Char) : List Char :=
  List.replicate (w - l.length) c ++ l

/-- The characters of `d.strftime('%Y-%m-%d')`. -/
def isoChars (d : PDate) : List Char :=
  padLeft '0' 4 (natDigits d.year) ++
    '-' :: (padLeft '0' 2 (natDigits d.month) ++
      '-' :: padLeft '0' 2 (natDigits d.day))

/-- `d.strftime('%Y-%m-%d')`. -/
def toIso (d : PDate) : String := String.mk (isoChars d)

/-- `datetime.strptime(s, '%Y-%m-%d')`: exactly 4 year digits (CPython's
`%Y` directive matches `\d\d\d\d`), a dash, 1–2 month digits, a dash,
1–2 day digits, nothing else, and the triple must be a real calendar date
(month 0, day 0 and out-of-range days fail the value checks, mirrored here
by `PDate.valid`). -/
def parseIsoChars (cs : List Char) : Option (Nat × Nat × Nat) :=
  let ys := cs.takeWhile Char.isDigit
  let r1 := cs.dropWhile Char.isDigit
  if ys.length ≠ 4 then none
  else
    match r1 with
    | '-' :: r2 =>
      let ms := r2.takeWhile Char.isDigit
      let r3 := r2.dropWhile Char.isDigit
      if ms.length = 0 ∨ 2 < ms.length then none
      else
        match r3 with
        | '-' :: r4 =>
          let ds := r4.takeWhile Char.isDigit
          let r5 := r4.dropWhile Char.isDigit
          if ds.length = 0 ∨ 2 < ds.length ∨ ¬ r5.isEmpty then none
          else
            let y := digitsToNat ys
            let m := digitsToNat ms
            let dd := digitsToNat ds
            if PDate.valid ⟨y, m, dd⟩ then some (y, m, dd) else none
        | _ => none
    | _ => none

/-- The `try: datetime.strptime(date_str, '%Y-%m-%d')` probe. -/
def strptimeIsoOk (s : String) : Bool := (parseIsoChars s.toList).isSome

/-- `date_str.strip().lower()`. -/
def stripLower (s : String) : String := pyLower (pyStrip s)

/-- `main.normalize_date_for_comparison`, with the resolved reference date
(`datetime.now().date()` by default) passed explicitly. -/
def normalize_date_for_comparison (ref : PDate) (dateStr : Option String) :
    Option String :=
  match dateStr with
  | none => none
  | some s0 =>
    if pyFalsyStr s0 then none
    else
      let s := stripLower s0
      if pyFalsyStr s || s = "none" || s = "null" then none
      else if strptimeIsoOk s then some s
      else if s = "today" then some (toIso ref)
      else if s = "tomorrow" then some (toIso (addDays ref 1))
      else if s = "yesterday" then some (toIso (subDays ref 1))
      else if s = "next week" || s = "in a week" then some (toIso (addDays ref 7))
      else if s = "next month" || s = "in a month" then some (toIso (addDays ref 30))
      else none

/-- `main.dates_are_equivalent` (`today` is the ambient current date used as
the reference for both normalizations). A normalized result is tested with
`isSome` rather than Python truthiness: `normalize` never returns an empty
string, so the two agree. -/
def dates_are_equivalent (today : PDate) (date1 date2 : Option String) : Bool :=
  if pyFalsyOpt date1 && pyFalsyOpt date2 then true
  else if pyFalsyOpt date1 || pyFalsyOpt date2 then false
  else
    match normalize_date_for_comparison today date1,
          normalize_date_for_comparison today date2 with
    | some a, some b => a == b
    | some _, none => false
    | none, some _ => false
    | none, none =>
      match date1, date2 with
      | some s1, some s2 => stripLower s1 == stripLower s2
      | _, _ => false

/-! ## Helper lemmas -/

theorem batchFold_spec (p : α → Bool) (l : List α) (acc : BatchResult) :
    (l.foldl
      (fun a u =>
        if p u then { a with successful := a.successful + 1 }
        else { a with failed := a.failed + 1 }) acc) =
    ⟨acc.successful + l.countP p, acc.failed + l.countP (fun u => !p u)⟩ := by
  induction l generalizing acc with
  | nil => simp [List.countP_nil]
  | cons x xs ih =>
    by_cases h : p x = true
    · rw [List.foldl_cons, if_pos h, ih]
      simp only [List.countP_cons, h, eq_self_iff_true, if_true,
        Bool.not_true, Bool.false_eq_true, if_false, BatchResult.mk.injEq]
      omega
    · rw [List.foldl_cons, if_neg h, ih]
      rw [Bool.not_eq_true] at h
      simp only [List.countP_cons, h, eq_self_iff_true, if_true,
        Bool.not_false, Bool.false_eq_true, if_false, BatchResult.mk.injEq]
      omega

theorem countP_not_add (p : α → Bool) (l : List α) :
    l.countP p + l.countP (fun u => !p u) = l.length := by
  induction l with
  | nil => simp
  | cons x xs ih => by_cases h : p x <;> simp [List.countP_cons, h] <;> omega

theorem batch_update_priorities_eq (api : String → Int → Bool)
    (updates : List (String × Int)) (dry_run : Bool) :
    batch_update_priorities api updates dry_run =
      ⟨updates.countP (fun u => update_task_priority api u.1 u.2 dry_run),
       updates.countP (fun u => !update_task_priority api u.1 u.2 dry_run)⟩ := by
  unfold batch_update_priorities
  simpa using
    batchFold_spec (fun u => update_task_priority api u.1 u.2 dry_run) updates ⟨0, 0⟩

theorem batch_update_due_dates_eq (api : String → String → Bool)
    (updates : List (String × Option String)) (dry_run : Bool) :
    batch_update_due_dates api updates dry_run =
      ⟨updates.countP (fun u => update_task_due_date api u.1 u.2 dry_run),
       updates.countP (fun u => !update_task_due_date api u.1 u.2 dry_run)⟩ := by
  unfold batch_update_due_dates
  simpa using
    batchFold_spec (fun u => update_task_due_date api u.1 u.2 dry_run) updates ⟨0, 0⟩

/-! ## Claim C10 -/

/-- C10: for every list of update tuples and every dry_run flag, the batch
write operations return 'successful' and 'failed' counts that sum exactly to
the number of input tuples; each tuple's contribution is determined solely by
its own single-item call (`countP` of the per-item predicate), so every tuple
is attempted independently of earlier outcomes. -/
theorem C10_batch_counts (papi : String → Int → Bool)
    (dapi : String → String → Bool)
    (pupdates : List (String × Int)) (dupdates : List (String × Option String))
    (dry_run : Bool) :
    (batch_update_priorities papi pupdates dry_run).successful
        = pupdates.countP (fun u => update_task_priority papi u.1 u.2 dry_run) ∧
    (batch_update_priorities papi pupdates dry_run).failed
        = pupdates.countP (fun u => !update_task_priority papi u.1 u.2 dry_run) ∧
    (batch_update_priorities papi pupdates dry_run).successful
        + (batch_update_priorities papi pupdates dry_run).failed
        = pupdates.length ∧
    (batch_update_due_dates dapi dupdates dry_run).successful
        = dupdates.countP (fun u => update_task_due_date dapi u.1 u.2 dry_run) ∧
    (batch_update_due_dates dapi dupdates dry_run).failed
        = dupdates.countP (fun u => !update_task_due_date dapi u.1 u.2 dry_run) ∧
    (batch_update_due_dates dapi dupdates dry_run).successful
        + (batch_update_due_dates dapi dupdates dry_run).failed
        = dupdates.length := by
  rw [batch_update_priorities_eq, batch_update_due_dates_eq]
  exact ⟨rfl, rfl, countP_not_add _ _, rfl, rfl, countP_not_add _ _⟩

/-! ## Claim C4 -/

/-- C4 as stated is false on the code: the language-model transport
(`AIRanker._call_openai`) is decorated with
`retry_if_exception_type((Exception,))`, so a non-transient exception
(here `ValueError`) does not propagate immediately — the call is retried
and can even succeed on the second attempt. -/
theorem C4_claim_counterexample :
    retryCall openaiRetryable 3
        (fun k => if k = 0 then .error .valueError else .ok (7 : Nat)) = .ok 7 ∧
    todoistRetryable .valueError = false := by
  constructor
  · rfl
  · rfl

/-- C4 (amended): the task-service transport retries only on
`RequestException`/`HTTPError` up to the 3-attempt budget and propagates any
other exception immediately without a retry (the outcome is fixed by attempt
0 alone); exhaustion surfaces the last failure. The language-model transport
instead retries on every exception class. -/
theorem C4_retry_classification :
    (∀ e, todoistRetryable e = true ↔ (e = .requestException ∨ e = .httpError)) ∧
    (∀ e, openaiRetryable e = true) ∧
    (∀ (α : Type) (attempt : Nat → Except PyExc α) e,
        todoistRetryable e = false → attempt 0 = .error e →
        retryCall todoistRetryable 3 attempt = .raised e) ∧
    (∀ (α : Type) (attempt : Nat → Except PyExc α) e v,
        todoistRetryable e = true → attempt 0 = .error e → attempt 1 = .ok v →
        retryCall todoistRetryable 3 attempt = .ok v) ∧
    (∀ (α : Type) (attempt : Nat → Except PyExc α) e0 e1 e2,
        todoistRetryable e0 = true → todoistRetryable e1 = true →
        todoistRetryable e2 = true →
        attempt 0 = .error e0 → attempt 1 = .error e1 → attempt 2 = .error e2 →
        retryCall todoistRetryable 3 attempt = .exhausted e2) ∧
    (∀ (α : Type) (attempt : Nat → Except PyExc α) e v,
        attempt 0 = .error e → attempt 1 = .ok v →
        retryCall openaiRetryable 3 attempt = .ok v) := by
  refine ⟨?_, ?_, ?_, ?_, ?_, ?_⟩
  · intro e; cases e <;> simp [todoistRetryable]
  · intro e; rfl
  · intro α attempt e hret h0
    simp [retryCall, retryAux, h0, hret]
  · intro α attempt e v hret h0 h1
    simp [retryCall, retryAux, h0, h1, hret]
  · intro α attempt e0 e1 e2 hr0 hr1 hr2 h0 h1 h2
    simp [retryCall, retryAux, h0, h1, h2, hr0, hr1, hr2]
  · intro α attempt e v h0 h1
    simp [retryCall, retryAux, h0, h1, openaiRetryable]

/-- Witness for C4: concrete attempt oracles exercising the immediate
propagation on the task-service transport and the retry-everything behavior
of the language-model transport. -/
theorem C4_retry_classification_witness :
    todoistRetryable .valueError = false ∧
    retryCall todoistRetryable 3
        (fun _ => (.error .valueError : Except PyExc Nat)) = .raised .valueError ∧
    retryCall openaiRetryable 3
        (fun k => if k = 0 then .error .requestException else .ok (5 : Nat)) = .ok 5 :=
  ⟨rfl,
   C4_retry_classification.2.2.1 Nat
     (fun _ => (.error .valueError : Except PyExc Nat)) .valueError rfl rfl,
   C4_retry_classification.2.2.2.2.2 Nat
     (fun k => if k = 0 then .error .requestException else .ok 5)
     .requestException 5 rfl rfl⟩

/-! ## Claim C3 -/

/-- C3 as stated is false on the code: `TaskPriority.validate_priority_level`
raises on a priority_level outside P1–P4 instead of normalizing it to P4, so
the element is rejected (validation returns none), not kept. -/
theorem C3_claim_counterexample :
    TaskPriority.validate
      { task_id := some "123", priority_score := some 50,
        priority_level := some "HIGH", reasoning := some "r" } = none := by
  rfl

/-- C3 (amended): the fixed table P1→4, P2→3, P3→2, P4→1 holds for both
result types; for `InboxOrganization` an empty `priority_level` or an
unrecognized label with no embedded P1..P4 substring normalizes to P4 and
the element is kept; `TaskPriority` instead rejects any element whose
`priority_level` is not exactly P1–P4 (case-insensitively). -/
theorem C3_level_normalization :
    (PLevel.todoistValue .P1 = 4 ∧ PLevel.todoistValue .P2 = 3 ∧
     PLevel.todoistValue .P3 = 2 ∧ PLevel.todoistValue .P4 = 1) ∧
    (∀ tp : TaskPriority, tp.todoist_priority = tp.priority_level.todoistValue) ∧
    (∀ o : InboxOrganization, o.todoist_priority = o.priority_level.todoistValue) ∧
    (∀ (r : RawOrganization) tid sc lv,
        r.task_id = some tid → r.priority_score = some sc →
        r.priority_level = some lv →
        InboxOrganization.validate r = some
          { task_id := tid
            priority_score := InboxOrganization.validate_priority_score sc
            priority_level := InboxOrganization.validate_priority_level lv
            project_id := normNullString r.project_id
            project_name := normNullString r.project_name
            due_date := normNullString r.due_date
            reasoning := normReasoning r.reasoning }) ∧
    (InboxOrganization.validate_priority_level "" = .P4) ∧
    (∀ v, pyFalsyStr v = false →
        levelOfString (pyStrip (pyUpper v)) = none →
        containsSub (pyStrip (pyUpper v)) "P1" = false →
        containsSub (pyStrip (pyUpper v)) "P2" = false →
        containsSub (pyStrip (pyUpper v)) "P3" = false →
        containsSub (pyStrip (pyUpper v)) "P4" = false →
        InboxOrganization.validate_priority_level v = .P4) ∧
    (∀ (r : RawRanking) lv, r.priority_level = some lv →
        TaskPriority.validate_priority_level lv = none →
        TaskPriority.validate r = none) := by
  refine ⟨⟨rfl, rfl, rfl, rfl⟩, fun tp => rfl, fun o => rfl, ?_, rfl, ?_, ?_⟩
  · intro r tid sc lv h1 h2 h3
    unfold InboxOrganization.validate
    rw [h1, h2, h3]
  · intro v hf hlev hc1 hc2 hc3 hc4
    unfold InboxOrganization.validate_priority_level
    rw [hf]
    simp only [Bool.false_eq_true, if_false, hlev, hc1, hc2, hc3, hc4]
  · rintro ⟨ti, sc, pl, rs⟩ lv hpl hval
    simp only at hpl
    subst hpl
    cases ti <;> cases sc <;> cases rs <;>
      simp [TaskPriority.validate, hval]

/-- Witness for C3: the unrecognized label "mega-urgent" is kept and
normalized to P4 by the organization type but rejected by the ranking
type. -/
theorem C3_level_normalization_witness :
    InboxOrganization.validate
        { task_id := some "1", priority_score := some (some 50),
          priority_level := some "mega-urgent" } = some
          { task_id := "1", priority_score := 50, priority_level := .P4,
            project_id := none, project_name := none, due_date := none,
            reasoning := "" } ∧
    TaskPriority.validate
        { task_id := some "1", priority_score := some 50,
          priority_level := some "mega-urgent", reasoning := some "r" }
      = none := by
  constructor
  · rw [C3_level_normalization.2.2.2.1
      { task_id := some "1", priority_score := some (some 50),
        priority_level := some "mega-urgent" } "1" (some 50) "mega-urgent"
      rfl rfl rfl]
    rfl
  · exact C3_level_normalization.2.2.2.2.2.2
      { task_id := some "1", priority_score := some 50,
        priority_level := some "mega-urgent", reasoning := some "r" }
      "mega-urgent" rfl rfl

/-! ## validateAll helper lemmas -/

theorem validateAll_eq_some (f : α → Option β) :
    ∀ {l : List α} {r : List β}, validateAll f l = some r → l.filterMap f = r := by
  intro l
  induction l with
  | nil => intro r h; simp [validateAll] at h; simp [h]
  | cons x xs ih =>
    intro r h
    cases hfx : f x with
    | none => simp [validateAll, hfx] at h
    | some y =>
      cases hall : validateAll f xs with
      | none => simp [validateAll, hfx, hall] at h
      | some ys =>
        simp [validateAll, hfx, hall] at h
        subst h
        simp [List.filterMap_cons, hfx, ih hall]

theorem validateAll_eq_none_of_mem (f : α → Option β) {l : List α} {e : α}
    (he : e ∈ l) (hne : f e = none) : validateAll f l = none := by
  induction l with
  | nil => cases he
  | cons x xs ih =>
    unfold validateAll
    rcases List.mem_cons.mp he with h | h
    · subst h
      rw [hne]
    · rw [ih h]
      cases f x <;> rfl

theorem validateAll_of_all_isSome (f : α → Option β) {l : List α}
    (h : ∀ x ∈ l, (f x).isSome = true) :
    validateAll f l = some (l.filterMap f) := by
  induction l with
  | nil => rfl
  | cons x xs ih =>
    have hx := h x (List.mem_cons_self x xs)
    obtain ⟨y, hy⟩ := Option.isSome_iff_exists.mp hx
    unfold validateAll
    rw [hy, ih (fun a ha => h a (List.mem_cons_of_mem x ha)),
      List.filterMap_cons, hy]

/-! ## Claim C2 -/

/-- A minimal well-formed task used in concrete scenarios. -/
def mkTask (i : String) : TodoistTask :=
  { id := i, content := "t", project_id := "p", priority := 1,
    created_at := "c", url := "u" }

/-- Five tasks forming one ranking batch. -/
def c2Tasks : List TodoistTask := ["1", "2", "3", "4", "5"].map mkTask

/-- A fully valid raw ranking element for the given id. -/
def c2GoodRaw (i : String) : RawRanking :=
  { task_id := some i, priority_score := some 50,
    priority_level := some "P2", reasoning := some "ok" }

/-- A 5-element `rankings` array whose third element is missing the required
`reasoning` field. -/
def c2Raws : List RawRanking :=
  [c2GoodRaw "1", c2GoodRaw "2",
   { task_id := some "3", priority_score := some 50, priority_level := some "P2" },
   c2GoodRaw "4", c2GoodRaw "5"]

/-- The model answers every batch with the 4-valid/1-invalid array. -/
def c2Respond : Nat → LMResponse RawRanking := fun _ => .parsed (some c2Raws)

/-- C2 as stated is false on the code: `rank_tasks` has no per-element
recovery tier — a 5-element batch response with 1 element missing a required
field makes the whole-collection validation fail, the entire batch is
dropped, and zero scores are returned even though 4 elements validate
individually. -/
theorem C2_claim_counterexample :
    rank_tasks c2Respond c2Tasks 20 = [] ∧
    (c2Raws.filterMap TaskPriority.validate).length = 4 := by
  constructor
  · rfl
  · rfl

/-- C2 (amended): only `organize_inbox_tasks` implements per-element
recovery — a batch response with the top-level array present contributes
exactly the elements that validate individually; `rank_tasks` keeps a batch
only when every element validates, and discards the whole batch (contributing
zero scores) as soon as one element fails. -/
theorem C2_partial_validation :
    (∀ elems : List RawOrganization,
        orgBatchResult (.parsed (some elems))
          = elems.filterMap InboxOrganization.validate) ∧
    (∀ elems : List RawRanking,
        (∃ e ∈ elems, TaskPriority.validate e = none) →
        rankBatchResult (.parsed (some elems)) = []) ∧
    (∀ elems : List RawRanking,
        (∀ e ∈ elems, (TaskPriority.validate e).isSome = true) →
        rankBatchResult (.parsed (some elems))
          = elems.filterMap TaskPriority.validate) := by
  refine ⟨?_, ?_, ?_⟩
  · intro elems
    cases hall : validateAll InboxOrganization.validate elems with
    | none => simp [orgBatchResult, hall]
    | some all =>
      simp only [orgBatchResult, hall]
      exact (validateAll_eq_some _ hall).symm
  · intro elems ⟨e, he, hne⟩
    simp [rankBatchResult, validateAll_eq_none_of_mem _ he hne]
  · intro elems h
    simp [rankBatchResult, validateAll_of_all_isSome _ h]

/-- A fully valid raw organization element for the given id. -/
def c2OrgGood (i : String) : RawOrganization :=
  { task_id := some i, priority_score := some (some 60),
    priority_level := some "P1" }

/-- A 5-element `organizations` array whose third element is missing the
required `priority_score` and `priority_level` fields. -/
def c2OrgRaws : List RawOrganization :=
  [c2OrgGood "1", c2OrgGood "2", { task_id := some "3" },
   c2OrgGood "4", c2OrgGood "5"]

/-- Witness for C2: the organization path keeps exactly the 4 individually
valid elements of a 5-element batch, while the ranking path drops its whole
batch. -/
theorem C2_partial_validation_witness :
    orgBatchResult (.parsed (some c2OrgRaws))
        = c2OrgRaws.filterMap InboxOrganization.validate ∧
    (c2OrgRaws.filterMap InboxOrganization.validate).length = 4 ∧
    rankBatchResult (.parsed (some c2Raws)) = [] :=
  ⟨C2_partial_validation.1 c2OrgRaws,
   by rfl,
   C2_partial_validation.2.1 c2Raws
     ⟨{ task_id := some "3", priority_score := some 50,
        priority_level := some "P2" },
      by decide, rfl⟩⟩

/-! ## Claim C1 -/

/-- A single-task input list with id "a". -/
def c1Tasks : List TodoistTask := [mkTask "a"]

/-- The model fabricates a result for the unknown id "b". -/
def c1Respond : Nat → LMResponse RawRanking := fun _ =>
  .parsed (some [{ task_id := some "b", priority_score := some 50,
                   priority_level := some "P1", reasoning := some "r" }])

/-- The validated fabricated ranking. -/
def c1ExtraRanking : TaskPriority := ⟨"b", 50, .P1, "r"⟩

/-- C1 as stated is false on the code: a fabricated task_id ("b", absent from
the single-task input ["a"]) is not only logged — it is returned in the
merged collection. -/
theorem C1_claim_counterexample :
    (rank_tasks c1Respond c1Tasks 20).map (fun r => r.task_id) = ["b"] ∧
    c1Tasks.map (fun t => t.id) = ["a"] := by
  constructor
  · rfl
  · rfl

/-- C1 (amended): the merged result of `rank_tasks` (and likewise
`organize_inbox_tasks`) may contain results whose task_id is absent from the
input; every such extra id is reported in the mismatch log's `extra_tasks`
list, but the result itself is kept in the returned collection. -/
theorem C1_extras_logged_and_included :
    (∀ (respond : Nat → LMResponse RawRanking) (tasks : List TodoistTask)
        (bs : Nat), ∀ r ∈ rank_tasks respond tasks bs,
        tasks.any (fun t => t.id == r.task_id) = false →
        r.task_id ∈ rankExtraIds respond tasks bs) ∧
    (∀ (respond : Nat → LMResponse RawOrganization) (tasks : List TodoistTask)
        (bs : Nat), ∀ o ∈ organize_inbox_tasks respond tasks bs,
        tasks.any (fun t => t.id == o.task_id) = false →
        o.task_id ∈ orgExtraIds respond tasks bs) := by
  constructor
  · intro respond tasks bs r hr hnone
    unfold rankExtraIds
    refine List.mem_filter.mpr ⟨?_, ?_⟩
    · exact List.mem_dedup.mpr (List.mem_map_of_mem _ hr)
    · simp [hnone]
  · intro respond tasks bs o ho hnone
    unfold orgExtraIds
    refine List.mem_filter.mpr ⟨?_, ?_⟩
    · exact List.mem_dedup.mpr (List.mem_map_of_mem _ ho)
    · simp [hnone]

/-- Witness for C1: in the concrete fabricated-id run, the extra result is in
the returned collection and its id "b" appears in the extra-ids report. -/
theorem C1_extras_logged_and_included_witness :
    c1ExtraRanking ∈ rank_tasks c1Respond c1Tasks 20 ∧
    "b" ∈ rankExtraIds c1Respond c1Tasks 20 :=
  ⟨by decide,
   C1_extras_logged_and_included.1 c1Respond c1Tasks 20 c1ExtraRanking
     (by decide) (by decide)⟩

/-! ## Claim C6 -/

theorem any_taskid_eq_iff (R : List TaskPriority) (i : String) :
    (R.any (fun r => r.task_id == i) = true) ↔ i ∈ R.map (fun r => r.task_id) := by
  simp [List.any_eq_true, List.mem_map, beq_iff_eq]

/-- C6: with 25 input tasks and batch size 20, the orchestration forms
exactly the two consecutive chunks of 20 and 5 in input order; when the first
chunk's model call yields unparseable JSON while the second chunk produces
scores covering exactly its own ids, the merged result is exactly the second
chunk's scores, the 20 first-chunk ids are reported missing, and the run
returns normally. -/
theorem C6_two_chunk_scenario (respond : Nat → LMResponse RawRanking)
    (tasks : List TodoistTask)
    (hlen : tasks.length = 25)
    (hnodup : (tasks.map (fun t => t.id)).Nodup)
    (h0 : respond 0 = .jsonError)
    (hids : (rankBatchResult (respond 1)).map (fun r => r.task_id)
              = (tasks.drop 20).map (fun t => t.id)) :
    chunkList 20 tasks = [tasks.take 20, tasks.drop 20] ∧
    (tasks.take 20).length = 20 ∧
    (tasks.drop 20).length = 5 ∧
    rank_tasks respond tasks 20 = rankBatchResult (respond 1) ∧
    rankMissingIds respond tasks 20 = (tasks.take 20).map (fun t => t.id) := by
  have hdroplen : (tasks.drop 20).length = 5 := by
    rw [List.length_drop, hlen]
  have hchunk : chunkList 20 tasks = [tasks.take 20, tasks.drop 20] := by
    unfold chunkList
    rw [hlen]
    have hs : chunkStarts 25 20 = [0, 20] := by rfl
    rw [hs]
    simp only [List.map_cons, List.map_nil, List.drop_zero]
    have ht : (tasks.drop 20).take 20 = tasks.drop 20 :=
      List.take_of_length_le (by rw [hdroplen]; omega)
    rw [ht]
  have hrank : rank_tasks respond tasks 20 = rankBatchResult (respond 1) := by
    unfold rank_tasks
    rw [hchunk]
    have he : List.enum [tasks.take 20, tasks.drop 20]
        = [(0, tasks.take 20), (1, tasks.drop 20)] := rfl
    rw [he]
    simp [h0, rankBatchResult]
  refine ⟨hchunk, by rw [List.length_take, hlen]; omega, hdroplen, hrank, ?_⟩
  unfold rankMissingIds
  rw [List.dedup_eq_self.mpr hnodup, hrank]
  have hsplit : tasks.map (fun t => t.id)
      = (tasks.take 20).map (fun t => t.id) ++ (tasks.drop 20).map (fun t => t.id) := by
    rw [← List.map_append, List.take_append_drop]
  have hnd : ((tasks.take 20).map (fun t => t.id)
      ++ (tasks.drop 20).map (fun t => t.id)).Nodup := by
    rw [← hsplit]; exact hnodup
  have hdisj := (List.nodup_append.mp hnd).2.2
  rw [hsplit, List.filter_append]
  have h1 : ((tasks.take 20).map (fun t => t.id)).filter
      (fun i => !(rankBatchResult (respond 1)).any (fun r => r.task_id == i))
      = (tasks.take 20).map (fun t => t.id) := by
    rw [List.filter_eq_self]
    intro a ha
    rw [Bool.not_eq_eq_eq_not, Bool.not_true, ← Bool.not_eq_true,
      any_taskid_eq_iff, hids]
    exact fun hmem => hdisj ha hmem
  have h2 : ((tasks.drop 20).map (fun t => t.id)).filter
      (fun i => !(rankBatchResult (respond 1)).any (fun r => r.task_id == i))
      = [] := by
    rw [List.filter_eq_nil_iff]
    intro a ha
    rw [Bool.not_eq_eq_eq_not, Bool.not_true, Bool.not_eq_false,
      any_taskid_eq_iff, hids]
    exact ha
  rw [h1, h2, List.append_nil]

/-- 25 concrete tasks with ids "0" … "24". -/
def c6Tasks : List TodoistTask := (List.range 25).map (fun n => mkTask (toString n))

/-- A valid raw ranking element for the given id. -/
def c6GoodRaw (i : String) : RawRanking :=
  { task_id := some i, priority_score := some 70,
    priority_level := some "P1", reasoning := some "ok" }

/-- Valid raw rankings covering exactly the second chunk's ids "20"…"24". -/
def c6SecondRaws : List RawRanking :=
  (List.range 5).map (fun n => c6GoodRaw (toString (20 + n)))

/-- Batch 0 fails to parse as JSON; batch 1 answers with the second chunk's
scores. -/
def c6Respond : Nat → LMResponse RawRanking := fun i =>
  if i = 0 then .jsonError else .parsed (some c6SecondRaws)

/-- Witness for C6: the concrete 25-task, two-chunk run. -/
theorem C6_two_chunk_scenario_witness :
    chunkList 20 c6Tasks = [c6Tasks.take 20, c6Tasks.drop 20] ∧
    (c6Tasks.take 20).length = 20 ∧
    (c6Tasks.drop 20).length = 5 ∧
    rank_tasks c6Respond c6Tasks 20 = rankBatchResult (c6Respond 1) ∧
    rankMissingIds c6Respond c6Tasks 20 = (c6Tasks.take 20).map (fun t => t.id) :=
  C6_two_chunk_scenario c6Respond c6Tasks (by rfl) (by decide) (by rfl) (by rfl)

/-! ## Selection lemmas (claim C5) -/

theorem mem_insertDescBy (le : α → α → Bool) (x z : α) :
    ∀ l, z ∈ insertDescBy le x l ↔ z = x ∨ z ∈ l := by
  intro l
  induction l with
  | nil => simp [insertDescBy]
  | cons y ys ih =>
    simp only [insertDescBy]
    by_cases h : le y x
    · simp [h, List.mem_cons]
    · simp only [h, Bool.false_eq_true, if_false, List.mem_cons, ih]
      tauto

theorem mem_sortDescBy (le : α → α → Bool) (z : α) :
    ∀ l, z ∈ sortDescBy le l ↔ z ∈ l := by
  intro l
  induction l with
  | nil => simp [sortDescBy]
  | cons x xs ih =>
    simp only [sortDescBy, mem_insertDescBy, ih, List.mem_cons]

theorem appendUpTo_eq_take (limit : Nat) :
    ∀ (l acc : List α), appendUpTo limit acc l = acc ++ l.take (limit - acc.length) := by
  intro l
  induction l with
  | nil => intro acc; simp [appendUpTo]
  | cons x xs ih =>
    intro acc
    by_cases h : limit ≤ acc.length
    · simp [appendUpTo, h, Nat.sub_eq_zero_of_le h]
    · simp only [appendUpTo, if_neg h]
      rw [ih (acc ++ [x])]
      have hk : limit - acc.length = (limit - (acc ++ [x]).length) + 1 := by
        simp only [List.length_append, List.length_cons, List.length_nil]
        omega
      rw [hk, List.take_succ_cons, List.append_assoc]
      rfl

theorem selectLoop_eq_take (limit : Nat) :
    ∀ (bs : List (List α)) (acc : List α),
      selectLoop limit acc bs = acc ++ bs.flatten.take (limit - acc.length) := by
  intro bs
  induction bs with
  | nil => intro acc; simp [selectLoop]
  | cons b bs ih =>
    intro acc
    by_cases h : limit ≤ acc.length
    · simp [selectLoop, h, Nat.sub_eq_zero_of_le h]
    · simp only [selectLoop, if_neg h]
      rw [ih, appendUpTo_eq_take, List.flatten_cons,
        List.take_append_eq_append_take, List.append_assoc]
      have hidx : limit - (acc ++ b.take (limit - acc.length)).length
          = limit - acc.length - b.length := by
        simp only [List.length_append, List.length_take]
        omega
      rw [hidx]

theorem sorted_insertDescBy_score (x : TodoistTask × TaskPriority)
    (l : List (TodoistTask × TaskPriority))
    (h : l.Pairwise (fun a b => b.2.priority_score ≤ a.2.priority_score)) :
    (insertDescBy scoreLE x l).Pairwise
      (fun a b => b.2.priority_score ≤ a.2.priority_score) := by
  induction l with
  | nil => simp [insertDescBy]
  | cons y ys ih =>
    rcases List.pairwise_cons.mp h with ⟨hy, hys⟩
    by_cases hle : scoreLE y x = true
    · simp only [insertDescBy, if_pos hle]
      refine List.pairwise_cons.mpr ⟨?_, h⟩
      intro z hz
      have hxy : y.2.priority_score ≤ x.2.priority_score := by
        simpa [scoreLE] using hle
      rcases List.mem_cons.mp hz with rfl | hz
      · exact hxy
      · have := hy z hz
        omega
    · simp only [insertDescBy, if_neg hle]
      refine List.pairwise_cons.mpr ⟨?_, ih hys⟩
      intro z hz
      rcases (mem_insertDescBy _ x z ys).mp hz with rfl | hz
      · have : ¬ (y.2.priority_score ≤ z.2.priority_score) := by
          simpa [scoreLE] using hle
        omega
      · exact hy z hz

theorem sorted_sortDescBy_score (l : List (TodoistTask × TaskPriority)) :
    (sortDescBy scoreLE l).Pairwise
      (fun a b => b.2.priority_score ≤ a.2.priority_score) := by
  induction l with
  | nil => simp [sortDescBy]
  | cons x xs ih => exact sorted_insertDescBy_score x _ ih

theorem filter_insertDescBy_of_ne (x : TodoistTask × TaskPriority) (s : Int)
    (hx : x.2.priority_score ≠ s) :
    ∀ l, (insertDescBy scoreLE x l).filter (fun a => a.2.priority_score == s)
      = l.filter (fun a => a.2.priority_score == s) := by
  have hpx : (x.2.priority_score == s) = false := beq_eq_false_iff_ne.mpr hx
  intro l
  induction l with
  | nil => simp [insertDescBy, hpx]
  | cons y ys ih =>
    by_cases hle : scoreLE y x = true
    · simp [insertDescBy, hle, List.filter_cons, hpx]
    · simp only [insertDescBy, hle, Bool.false_eq_true, if_false]
      rw [List.filter_cons, List.filter_cons, ih]

theorem filter_insertDescBy_of_eq (x : TodoistTask × TaskPriority) (s : Int)
    (hx : x.2.priority_score = s) :
    ∀ l, l.Pairwise (fun a b => b.2.priority_score ≤ a.2.priority_score) →
      (insertDescBy scoreLE x l).filter (fun a => a.2.priority_score == s)
        = x :: l.filter (fun a => a.2.priority_score == s) := by
  have hpx : (x.2.priority_score == s) = true := beq_iff_eq.mpr hx
  intro l
  induction l with
  | nil => simp [insertDescBy, hpx]
  | cons y ys ih =>
    intro hsort
    rcases List.pairwise_cons.mp hsort with ⟨_, hys⟩
    by_cases hle : scoreLE y x = true
    · simp [insertDescBy, hle, List.filter_cons, hpx]
    · have hgt : ¬ (y.2.priority_score ≤ x.2.priority_score) := by
        simpa [scoreLE] using hle
      have hpy : (y.2.priority_score == s) = false := by
        rw [beq_eq_false_iff_ne]
        omega
      simp only [insertDescBy, hle, Bool.false_eq_true, if_false]
      rw [List.filter_cons, List.filter_cons, hpy, ih hys]
      simp

theorem filter_sortDescBy_score (s : Int) :
    ∀ l : List (TodoistTask × TaskPriority),
      (sortDescBy scoreLE l).filter (fun a => a.2.priority_score == s)
        = l.filter (fun a => a.2.priority_score == s) := by
  intro l
  induction l with
  | nil => rfl
  | cons x xs ih =>
    by_cases hx : x.2.priority_score = s
    · rw [sortDescBy, filter_insertDescBy_of_eq x s hx _ (sorted_sortDescBy_score xs),
        ih, List.filter_cons]
      simp [hx]
    · rw [sortDescBy, filter_insertDescBy_of_ne x s hx, ih, List.filter_cons]
      simp [beq_eq_false_iff_ne.mpr hx]

theorem mem_bucketPairs_level {tasks : List TodoistTask}
    {rankings : List TaskPriority} {lvl : PLevel}
    {z : TodoistTask × TaskPriority} (hz : z ∈ bucketPairs tasks rankings lvl) :
    z.2.priority_level = lvl := by
  unfold bucketPairs at hz
  rcases List.mem_filterMap.mp hz with ⟨r, _, h⟩
  by_cases hl : r.priority_level = lvl
  · rw [if_pos hl] at h
    rcases Option.map_eq_some'.mp h with ⟨t, _, rfl⟩
    exact hl
  · rw [if_neg hl] at h
    simp at h

theorem mem_sortedBucket_level {tasks : List TodoistTask}
    {rankings : List TaskPriority} {lvl : PLevel}
    {z : TodoistTask × TaskPriority} (hz : z ∈ sortedBucket tasks rankings lvl) :
    z.2.priority_level = lvl :=
  mem_bucketPairs_level ((mem_sortDescBy _ _ _).mp hz)

/-! ## Claim C5 -/

/-- C5: Today-view selection partitions the scored tasks into four buckets by
priority_level, sorts each bucket descending by score (stably: equal scores
keep their ranking order), and fills the output by walking buckets P1→P4,
appending greedily until `limit`; hence the output has at most `limit`
entries and whenever any P4-scored pair is selected, every P1-bucket pair is
selected — bucket precedence is absolute regardless of scores. -/
theorem C5_selection (tasks : List TodoistTask) (rankings : List TaskPriority)
    (limit : Nat) :
    (selectTodayTasks tasks rankings limit).length ≤ limit ∧
    selectedPairs tasks rankings limit =
      (sortedBucket tasks rankings .P1 ++ sortedBucket tasks rankings .P2 ++
       sortedBucket tasks rankings .P3 ++ sortedBucket tasks rankings .P4).take limit ∧
    (∀ lvl, (sortedBucket tasks rankings lvl).Pairwise
        (fun a b => b.2.priority_score ≤ a.2.priority_score)) ∧
    (∀ lvl (s : Int), (sortedBucket tasks rankings lvl).filter
        (fun a => a.2.priority_score == s)
      = (bucketPairs tasks rankings lvl).filter
        (fun a => a.2.priority_score == s)) ∧
    ((∃ x ∈ selectedPairs tasks rankings limit, x.2.priority_level = .P4) →
      ∀ y ∈ sortedBucket tasks rankings .P1,
        y ∈ selectedPairs tasks rankings limit) := by
  have hsel : selectedPairs tasks rankings limit =
      (sortedBucket tasks rankings .P1 ++ sortedBucket tasks rankings .P2 ++
       sortedBucket tasks rankings .P3 ++ sortedBucket tasks rankings .P4).take limit := by
    unfold selectedPairs
    rw [selectLoop_eq_take]
    simp [List.flatten]
  refine ⟨?_, hsel, ?_, ?_, ?_⟩
  · unfold selectTodayTasks
    rw [hsel]
    simp only [List.length_map, List.length_take]
    omega
  · intro lvl
    exact sorted_sortDescBy_score _
  · intro lvl s
    exact filter_sortDescBy_score s _
  · rintro ⟨x, hx, hP4⟩ y hy
    set s1 := sortedBucket tasks rankings .P1 with hs1
    set s2 := sortedBucket tasks rankings .P2 with hs2
    set s3 := sortedBucket tasks rankings .P3 with hs3
    set s4 := sortedBucket tasks rankings .P4 with hs4
    have hE : s1 ++ s2 ++ s3 ++ s4 = (s1 ++ s2 ++ s3) ++ s4 := by
      simp [List.append_assoc]
    rw [hsel] at hx ⊢
    rw [hE] at hx ⊢
    have hxE : x ∈ (s1 ++ s2 ++ s3) ++ s4 := List.take_subset _ _ hx
    have hxA : x ∉ s1 ++ s2 ++ s3 := by
      intro hmem
      rcases List.mem_append.mp hmem with hmem | hmem3
      · rcases List.mem_append.mp hmem with hmem1 | hmem2
        · rw [mem_sortedBucket_level (hs1 ▸ hmem1)] at hP4
          cases hP4
        · rw [mem_sortedBucket_level (hs2 ▸ hmem2)] at hP4
          cases hP4
      · rw [mem_sortedBucket_level (hs3 ▸ hmem3)] at hP4
        cases hP4
    have hlen : (s1 ++ s2 ++ s3).length < limit := by
      by_contra hnot
      push_neg at hnot
      rw [List.take_append_of_le_length hnot] at hx
      exact hxA (List.take_subset _ _ hx)
    rw [List.take_append_eq_append_take]
    refine List.mem_append.mpr (Or.inl ?_)
    have hytail : y ∈ s1 ++ s2 ++ s3 :=
      List.mem_append.mpr (Or.inl (List.mem_append.mpr (Or.inl hy)))
    rw [List.take_of_length_le (by omega)]
    exact hytail

/-- Two tasks: "a" is ranked P1 with score 10, "b" is ranked P4 with
score 100. -/
def c5Tasks : List TodoistTask := [mkTask "a", mkTask "b"]

/-- The corresponding ScoreSet. -/
def c5Rankings : List TaskPriority :=
  [⟨"a", 10, .P1, "r"⟩, ⟨"b", 100, .P4, "r"⟩]

/-- Witness for C5: with limit 2 the P4 pair is selected, and the theorem's
precedence conjunct then forces the barely-scored P1 pair to be selected
too. -/
theorem C5_selection_witness :
    (selectTodayTasks c5Tasks c5Rankings 2).length ≤ 2 ∧
    (mkTask "b", (⟨"b", 100, .P4, "r"⟩ : TaskPriority))
        ∈ selectedPairs c5Tasks c5Rankings 2 ∧
    (mkTask "a", (⟨"a", 10, .P1, "r"⟩ : TaskPriority))
        ∈ selectedPairs c5Tasks c5Rankings 2 :=
  ⟨(C5_selection c5Tasks c5Rankings 2).1,
   by decide,
   (C5_selection c5Tasks c5Rankings 2).2.2.2.2
     ⟨(mkTask "b", (⟨"b", 100, .P4, "r"⟩ : TaskPriority)), by decide, rfl⟩
     (mkTask "a", (⟨"a", 10, .P1, "r"⟩ : TaskPriority)) (by decide)⟩

/-! ## Claim C8 -/

/-- C8: in Today-view reconciliation, a recurring task (all occurrences of
its id being recurring) never appears in the set-to-today due-date updates
nor in the reschedule-to-tomorrow updates, yet a recurring selected task
still becomes a priority-update candidate (when its priority differs from
the ranked one) and still appears in the final reorder list (when it has a
ranking). -/
theorem C8_recurring_frame (selected to_remove : List TodoistTask)
    (rankings : List TaskPriority) (t : TodoistTask)
    (hsel : ∀ u ∈ selected, u.id = t.id → u.is_recurring = true)
    (hrem : ∀ u ∈ to_remove, u.id = t.id → u.is_recurring = true) :
    t.id ∉ (todayDueUpdates selected).map Prod.fst ∧
    t.id ∉ (tomorrowDueUpdates to_remove).map Prod.fst ∧
    (∀ r, t ∈ selected → get_ranking_for_task rankings t.id = some r →
        t.priority ≠ r.todoist_priority →
        (t.id, r.todoist_priority) ∈ priorityUpdates selected rankings) ∧
    (∀ r, t ∈ selected → get_ranking_for_task rankings t.id = some r →
        t ∈ finalOrderedTasks selected rankings) := by
  refine ⟨?_, ?_, ?_, ?_⟩
  · intro hmem
    unfold todayDueUpdates at hmem
    rw [List.map_map] at hmem
    rcases List.mem_map.mp hmem with ⟨u, hu, hid⟩
    rcases List.mem_filter.mp hu with ⟨husel, hunr⟩
    have hurec := hsel u husel hid
    rw [hurec] at hunr
    cases hunr
  · intro hmem
    unfold tomorrowDueUpdates at hmem
    rw [List.map_map] at hmem
    rcases List.mem_map.mp hmem with ⟨u, hu, hid⟩
    rcases List.mem_filter.mp hu with ⟨hurem, hunr⟩
    have hurec := hrem u hurem hid
    rw [hurec] at hunr
    cases hunr
  · intro r htmem hr hne
    unfold priorityUpdates
    refine List.mem_filterMap.mpr ⟨t, htmem, ?_⟩
    rw [hr]
    simp [hne]
  · intro r htmem hr
    unfold finalOrderedTasks
    refine List.mem_map.mpr
      ⟨(t, r.todoist_priority, r.priority_score), ?_, rfl⟩
    rw [mem_sortDescBy]
    unfold orderedTasksRaw
    refine List.mem_filterMap.mpr ⟨t, htmem, ?_⟩
    rw [hr]
    rfl

/-- A recurring task with id "rec". -/
def c8Recurring : TodoistTask :=
  { mkTask "rec" with due := some { date := "2025-01-01", is_recurring := true } }

/-- A plain task with id "x". -/
def c8Plain : TodoistTask := mkTask "x"

/-- Witness for C8: with selected = [recurring "rec", plain "x"], an empty
to-remove set, and a ranking mapping "rec" to P1, the recurring task is kept
out of both due-date update lists but present in the priority updates and
the final reorder list. -/
theorem C8_recurring_frame_witness :
    c8Recurring.id ∉ (todayDueUpdates [c8Recurring, c8Plain]).map Prod.fst ∧
    c8Recurring.id ∉ (tomorrowDueUpdates []).map Prod.fst ∧
    (c8Recurring.id, (4 : Int))
        ∈ priorityUpdates [c8Recurring, c8Plain] [⟨"rec", 80, .P1, "r"⟩] ∧
    c8Recurring ∈ finalOrderedTasks [c8Recurring, c8Plain] [⟨"rec", 80, .P1, "r"⟩] := by
  have h := C8_recurring_frame [c8Recurring, c8Plain] []
    [⟨"rec", 80, .P1, "r"⟩] c8Recurring (by decide) (by intro u hu; cases hu)
  exact ⟨h.1, h.2.1,
    h.2.2.1 ⟨"rec", 80, .P1, "r"⟩ (by decide) rfl (by decide),
    h.2.2.2 ⟨"rec", 80, .P1, "r"⟩ (by decide) rfl⟩

/-! ## Date lemmas (claim C7) -/
theorem digitChar_isDigit {k : Nat} (h : k < 10) : (digitChar k).isDigit = true := by
  interval_cases k <;> decide

theorem digitChar_toNat {k : Nat} (h : k < 10) : (digitChar k).toNat = 48 + k := by
  interval_cases k <;> decide

theorem natDigitsRev_all {n fuel : Nat} (h : n < fuel) :
    ∀ c ∈ natDigitsRev fuel n, c.isDigit = true := by
  induction fuel generalizing n with
  | zero => omega
  | succ fuel ih =>
    intro c hc
    rw [natDigitsRev] at hc
    by_cases h10 : n < 10
    · rw [if_pos h10] at hc
      rcases List.mem_singleton.mp hc with rfl
      exact digitChar_isDigit h10
    · rw [if_neg h10] at hc
      rcases List.mem_cons.mp hc with rfl | hc
      · exact digitChar_isDigit (Nat.mod_lt _ (by omega))
      · exact ih (by omega) c hc

theorem digitsToNat_append_one (l : List Char) (c : Char) :
    digitsToNat (l ++ [c]) = (digitsToNat l) * 10 + (c.toNat - 48) := by
  unfold digitsToNat
  rw [List.foldl_append]
  rfl

theorem natDigitsRev_val {n fuel : Nat} (h : n < fuel) :
    digitsToNat (natDigitsRev fuel n).reverse = n := by
  induction fuel generalizing n with
  | zero => omega
  | succ fuel ih =>
    rw [natDigitsRev]
    by_cases h10 : n < 10
    · rw [if_pos h10]
      simp only [List.reverse_singleton]
      show digitsToNat ([] ++ [digitChar n]) = n
      rw [digitsToNat_append_one, digitChar_toNat h10]
      simp [digitsToNat]
    · rw [if_neg h10]
      rw [List.reverse_cons, digitsToNat_append_one, ih (by omega),
        digitChar_toNat (Nat.mod_lt _ (by omega))]
      omega

theorem digitsToNat_natDigits (n : Nat) : digitsToNat (natDigits n) = n :=
  natDigitsRev_val (Nat.lt_succ_self n)

theorem natDigits_all (n : Nat) : ∀ c ∈ natDigits n, c.isDigit = true := by
  intro c hc
  exact natDigitsRev_all (Nat.lt_succ_self n) c (List.mem_reverse.mp hc)

theorem natDigitsRev_len_le {n fuel k : Nat} (h : n < fuel) (hk : 1 ≤ k)
    (hn : n < 10 ^ k) : (natDigitsRev fuel n).length ≤ k := by
  induction fuel generalizing n k with
  | zero => omega
  | succ fuel ih =>
    rw [natDigitsRev]
    by_cases h10 : n < 10
    · rw [if_pos h10]
      simpa using hk
    · rw [if_neg h10]
      simp only [List.length_cons]
      have hk2 : 2 ≤ k := by
        by_contra hlt
        push_neg at hlt
        interval_cases k
        · simp at hn; omega
      have : n / 10 < 10 ^ (k - 1) := by
        have h1 : 10 ^ k = 10 ^ (k - 1) * 10 := by
          rw [← Nat.pow_succ]
          congr 1
          omega
        rw [h1] at hn
        omega
      have := ih (n := n / 10) (k := k - 1) (by omega) (by omega) this
      omega

theorem natDigits_len_le {n k : Nat} (hk : 1 ≤ k) (hn : n < 10 ^ k) :
    (natDigits n).length ≤ k := by
  rw [natDigits, List.length_reverse]
  exact natDigitsRev_len_le (Nat.lt_succ_self n) hk hn

theorem natDigitsRev_lt {n fuel : Nat} (h : n < fuel) :
    n < 10 ^ (natDigitsRev fuel n).length := by
  induction fuel generalizing n with
  | zero => omega
  | succ fuel ih =>
    rw [natDigitsRev]
    by_cases h10 : n < 10
    · rw [if_pos h10]
      simpa using h10
    · rw [if_neg h10]
      simp only [List.length_cons]
      have := ih (n := n / 10) (by omega)
      rw [Nat.pow_succ]
      omega

theorem natDigits_lt (n : Nat) : n < 10 ^ (natDigits n).length := by
  rw [natDigits, List.length_reverse]
  exact natDigitsRev_lt (Nat.lt_succ_self n)

theorem natDigitsRev_ne_nil {n fuel : Nat} (h : n < fuel) :
    natDigitsRev fuel n ≠ [] := by
  cases fuel with
  | zero => omega
  | succ fuel =>
    rw [natDigitsRev]
    by_cases h10 : n < 10
    · simp [h10]
    · simp [h10]

theorem natDigits_length_pos (n : Nat) : 1 ≤ (natDigits n).length := by
  rw [natDigits, List.length_reverse]
  have := natDigitsRev_ne_nil (Nat.lt_succ_self n)
  cases hres : natDigitsRev (n + 1) n with
  | nil => exact absurd hres this
  | cons a l => simp

theorem padLeft_length {w : Nat} {l : List Char} (h : l.length ≤ w) (c : Char) :
    (padLeft c w l).length = w := by
  simp [padLeft, List.length_append, List.length_replicate]
  omega

theorem padLeft_all_digits {w : Nat} {l : List Char}
    (h : ∀ c ∈ l, c.isDigit = true) :
    ∀ c ∈ padLeft '0' w l, c.isDigit = true := by
  intro c hc
  rcases List.mem_append.mp hc with hc | hc
  · rcases List.eq_of_mem_replicate hc with rfl
    decide
  · exact h c hc

theorem foldl_replicate_zero (k : Nat) :
    List.foldl (fun a c => a * 10 + (c.toNat - 48)) 0 (List.replicate k '0') = 0 := by
  induction k with
  | zero => rfl
  | succ k ih =>
    rw [List.replicate_succ, List.foldl_cons]
    simpa using ih

theorem digitsToNat_padLeft (w : Nat) (l : List Char) :
    digitsToNat (padLeft '0' w l) = digitsToNat l := by
  unfold padLeft digitsToNat
  rw [List.foldl_append, foldl_replicate_zero]

theorem takeWhile_append_dash {A : List Char} (hA : ∀ c ∈ A, c.isDigit = true)
    (B : List Char) :
    (A ++ '-' :: B).takeWhile Char.isDigit = A ∧
    (A ++ '-' :: B).dropWhile Char.isDigit = '-' :: B := by
  induction A with
  | nil => constructor <;> simp [List.takeWhile, List.dropWhile]
  | cons a A ih =>
    have ha : a.isDigit = true := hA a (List.mem_cons_self a A)
    have htail := ih (fun c hc => hA c (List.mem_cons_of_mem a hc))
    constructor
    · rw [List.cons_append, List.takeWhile_cons, ha]
      simp [htail.1]
    · rw [List.cons_append, List.dropWhile_cons, ha]
      simp [htail.2]

theorem takeWhile_all_digits {A : List Char} (hA : ∀ c ∈ A, c.isDigit = true) :
    A.takeWhile Char.isDigit = A ∧ A.dropWhile Char.isDigit = [] := by
  induction A with
  | nil => constructor <;> rfl
  | cons a A ih =>
    have ha : a.isDigit = true := hA a (List.mem_cons_self a A)
    have htail := ih (fun c hc => hA c (List.mem_cons_of_mem a hc))
    constructor
    · rw [List.takeWhile_cons, ha]
      simp [htail.1]
    · rw [List.dropWhile_cons, ha]
      simp [htail.2]

theorem daysInMonth_le_31 (y m : Nat) : daysInMonth y m ≤ 31 := by
  unfold daysInMonth
  split
  · split <;> omega
  · split <;> omega

theorem one_le_daysInMonth (y m : Nat) : 1 ≤ daysInMonth y m := by
  unfold daysInMonth
  split
  · split <;> omega
  · split <;> omega

theorem valid_fields {d : PDate} (hv : d.valid = true) :
    1 ≤ d.year ∧ 1 ≤ d.month ∧ d.month ≤ 12 ∧ 1 ≤ d.day ∧
      d.day ≤ daysInMonth d.year d.month := by
  simp only [PDate.valid, Bool.and_eq_true, decide_eq_true_eq] at hv
  tauto

theorem parseIsoChars_isoChars (d : PDate) (hv : d.valid = true)
    (hy1 : 1000 ≤ d.year) (hy2 : d.year ≤ 9999) :
    parseIsoChars (isoChars d) = some (d.year, d.month, d.day) := by
  obtain ⟨hy0, hm1, hm2, hd1, hd2⟩ := valid_fields hv
  have hdle : d.day ≤ 31 := le_trans hd2 (daysInMonth_le_31 _ _)
  have hYdig := padLeft_all_digits (w := 4) (natDigits_all d.year)
  have hMdig := padLeft_all_digits (w := 2) (natDigits_all d.month)
  have hDdig := padLeft_all_digits (w := 2) (natDigits_all d.day)
  have hYlen : (padLeft '0' 4 (natDigits d.year)).length = 4 :=
    padLeft_length (natDigits_len_le (by omega) (by norm_num; omega)) '0'
  have hMlen : (padLeft '0' 2 (natDigits d.month)).length = 2 :=
    padLeft_length (natDigits_len_le (by omega) (by norm_num; omega)) '0'
  have hDlen : (padLeft '0' 2 (natDigits d.day)).length = 2 :=
    padLeft_length (natDigits_len_le (by omega) (by norm_num; omega)) '0'
  have h1 := takeWhile_append_dash hYdig
    (padLeft '0' 2 (natDigits d.month) ++ '-' :: padLeft '0' 2 (natDigits d.day))
  have h2 := takeWhile_append_dash hMdig (padLeft '0' 2 (natDigits d.day))
  have h3 := takeWhile_all_digits hDdig
  have hvd : PDate.valid ⟨d.year, d.month, d.day⟩ = true := hv
  simp only [parseIsoChars, isoChars, h1.1, h1.2, h2.1, h2.2, h3.1, h3.2,
    hYlen, hMlen, hDlen, digitsToNat_padLeft, digitsToNat_natDigits, hvd]
  norm_num

theorem char_val_le {c : Char} {k : Nat} (hk : k < 4294967296)
    (h : c.val ≤ UInt32.ofNat k) : c.toNat ≤ k := by
  rw [UInt32.le_def, BitVec.le_def] at h
  simpa [Char.toNat, UInt32.toNat, UInt32.ofNat, BitVec.toNat_ofNat,
    Nat.mod_eq_of_lt hk] using h

theorem char_val_ge {c : Char} {k : Nat} (hk : k < 4294967296)
    (h : UInt32.ofNat k ≤ c.val) : k ≤ c.toNat := by
  rw [UInt32.le_def, BitVec.le_def] at h
  simpa [Char.toNat, UInt32.toNat, UInt32.ofNat, BitVec.toNat_ofNat,
    Nat.mod_eq_of_lt hk] using h

theorem isDigit_toNat {c : Char} (h : c.isDigit = true) :
    48 ≤ c.toNat ∧ c.toNat ≤ 57 := by
  simp only [Char.isDigit, Bool.and_eq_true, decide_eq_true_eq] at h
  exact ⟨char_val_ge (by norm_num) h.1, char_val_le (by norm_num) h.2⟩

theorem digit_toLower {c : Char} (h : c.isDigit = true) : c.toLower = c := by
  obtain ⟨h1, h2⟩ := isDigit_toNat h
  unfold Char.toLower
  rw [if_neg]
  rintro ⟨ha, _⟩
  omega

theorem digit_not_ws {c : Char} (h : c.isDigit = true) : c.isWhitespace = false := by
  obtain ⟨h1, h2⟩ := isDigit_toNat h
  simp only [Char.isWhitespace, Bool.or_eq_false_iff, decide_eq_false_iff_not]
  refine ⟨⟨⟨?_, ?_⟩, ?_⟩, ?_⟩ <;>
    · rintro rfl
      simp [Char.toNat, UInt32.size] at h1 h2

theorem dropWhile_eq_self_of_none {p : Char → Bool} :
    ∀ l : List Char, (∀ c ∈ l, p c = false) → l.dropWhile p = l := by
  intro l h
  cases l with
  | nil => rfl
  | cons a l =>
    rw [List.dropWhile_cons, h a (List.mem_cons_self a l)]
    simp

theorem trimChars_eq_self {l : List Char}
    (h : ∀ c ∈ l, c.isWhitespace = false) : trimChars l = l := by
  unfold trimChars
  rw [dropWhile_eq_self_of_none l h,
    dropWhile_eq_self_of_none l.reverse (fun c hc => h c (List.mem_reverse.mp hc)),
    List.reverse_reverse]

theorem map_toLower_eq_self {l : List Char}
    (h : ∀ c ∈ l, c.isDigit = true ∨ c = '-') : l.map Char.toLower = l := by
  induction l with
  | nil => rfl
  | cons a l ih =>
    rw [List.map_cons, ih (fun c hc => h c (List.mem_cons_of_mem a hc))]
    rcases h a (List.mem_cons_self a l) with ha | rfl
    · rw [digit_toLower ha]
    · rfl

theorem isoChars_good (d : PDate) : ∀ c ∈ isoChars d, c.isDigit = true ∨ c = '-' := by
  intro c hc
  unfold isoChars at hc
  rcases List.mem_append.mp hc with hc | hc
  · exact Or.inl (padLeft_all_digits (natDigits_all d.year) c hc)
  · rcases List.mem_cons.mp hc with rfl | hc
    · exact Or.inr rfl
    · rcases List.mem_append.mp hc with hc | hc
      · exact Or.inl (padLeft_all_digits (natDigits_all d.month) c hc)
      · rcases List.mem_cons.mp hc with rfl | hc
        · exact Or.inr rfl
        · exact Or.inl (padLeft_all_digits (natDigits_all d.day) c hc)

theorem isoChars_not_ws (d : PDate) : ∀ c ∈ isoChars d, c.isWhitespace = false := by
  intro c hc
  rcases isoChars_good d c hc with h | rfl
  · exact digit_not_ws h
  · rfl

theorem toIso_toList (d : PDate) : (toIso d).toList = isoChars d := rfl

theorem stripLower_toIso (d : PDate) : stripLower (toIso d) = toIso d := by
  unfold stripLower pyLower pyStrip
  rw [toIso_toList, trimChars_eq_self (isoChars_not_ws d)]
  show String.mk ((isoChars d).map Char.toLower) = toIso d
  rw [map_toLower_eq_self (isoChars_good d)]
  rfl

theorem pyFalsyStr_toIso (d : PDate) : pyFalsyStr (toIso d) = false := by
  unfold pyFalsyStr
  rw [toIso_toList]
  unfold isoChars
  simp

theorem isoChars_length (d : PDate) (hv : d.valid = true)
    (hy1 : 1000 ≤ d.year) (hy2 : d.year ≤ 9999) : (isoChars d).length = 10 := by
  obtain ⟨hy0, hm1, hm2, hd1, hd2⟩ := valid_fields hv
  have hdle : d.day ≤ 31 := le_trans hd2 (daysInMonth_le_31 _ _)
  have hYlen : (padLeft '0' 4 (natDigits d.year)).length = 4 :=
    padLeft_length (natDigits_len_le (by omega) (by norm_num; omega)) '0'
  have hMlen : (padLeft '0' 2 (natDigits d.month)).length = 2 :=
    padLeft_length (natDigits_len_le (by omega) (by norm_num; omega)) '0'
  have hDlen : (padLeft '0' 2 (natDigits d.day)).length = 2 :=
    padLeft_length (natDigits_len_le (by omega) (by norm_num; omega)) '0'
  unfold isoChars
  simp [List.length_append, hYlen, hMlen, hDlen]

theorem toIso_ne_short (d : PDate) (hv : d.valid = true)
    (hy1 : 1000 ≤ d.year) (hy2 : d.year ≤ 9999) (s : String)
    (hs : s.toList.length ≠ 10) : toIso d ≠ s := by
  intro h
  apply hs
  rw [← h, toIso_toList, isoChars_length d hv hy1 hy2]

theorem strptimeIsoOk_toIso (d : PDate) (hv : d.valid = true)
    (hy1 : 1000 ≤ d.year) (hy2 : d.year ≤ 9999) :
    strptimeIsoOk (toIso d) = true := by
  unfold strptimeIsoOk
  rw [toIso_toList, parseIsoChars_isoChars d hv hy1 hy2]
  rfl

theorem normalize_toIso (ref d : PDate) (hv : d.valid = true)
    (hy1 : 1000 ≤ d.year) (hy2 : d.year ≤ 9999) :
    normalize_date_for_comparison ref (some (toIso d)) = some (toIso d) := by
  have hne1 : toIso d ≠ "none" := toIso_ne_short d hv hy1 hy2 _ (by decide)
  have hne2 : toIso d ≠ "null" := toIso_ne_short d hv hy1 hy2 _ (by decide)
  simp only [normalize_date_for_comparison, pyFalsyStr_toIso,
    Bool.false_eq_true, if_false, stripLower_toIso, hne1, hne2,
    strptimeIsoOk_toIso d hv hy1 hy2, decide_False, Bool.or_false,
    Bool.false_or, if_true]

theorem nextDay_valid {d : PDate} (hv : d.valid = true) :
    (nextDay d).valid = true := by
  obtain ⟨hy0, hm1, hm2, hd1, hd2⟩ := valid_fields hv
  unfold nextDay
  by_cases h1 : d.day < daysInMonth d.year d.month
  · rw [if_pos h1]
    simp only [PDate.valid, Bool.and_eq_true, decide_eq_true_eq]
    refine ⟨⟨⟨⟨by omega, by omega⟩, by omega⟩, by omega⟩, by omega⟩
  · rw [if_neg h1]
    by_cases h2 : d.month < 12
    · rw [if_pos h2]
      simp only [PDate.valid, Bool.and_eq_true, decide_eq_true_eq]
      exact ⟨⟨⟨⟨by omega, by omega⟩, by omega⟩, by omega⟩, one_le_daysInMonth _ _⟩
    · rw [if_neg h2]
      simp only [PDate.valid, Bool.and_eq_true, decide_eq_true_eq]
      exact ⟨⟨⟨⟨by omega, by omega⟩, by omega⟩, by omega⟩, one_le_daysInMonth _ _⟩

theorem nextDay_year_bounds (d : PDate) :
    d.year ≤ (nextDay d).year ∧ (nextDay d).year ≤ d.year + 1 := by
  unfold nextDay
  split
  · exact ⟨Nat.le_refl _, Nat.le_succ _⟩
  · split
    · exact ⟨Nat.le_refl _, Nat.le_succ _⟩
    · exact ⟨Nat.le_succ _, Nat.le_refl _⟩

theorem addDays_valid {d : PDate} (hv : d.valid = true) (n : Nat) :
    (addDays d n).valid = true := by
  induction n generalizing d with
  | zero => exact hv
  | succ n ih => exact ih (nextDay_valid hv)

theorem addDays_year_bounds (d : PDate) (n : Nat) :
    d.year ≤ (addDays d n).year ∧ (addDays d n).year ≤ d.year + n := by
  induction n generalizing d with
  | zero => simp [addDays]
  | succ n ih =>
    have h1 := nextDay_year_bounds d
    have h2 := ih (nextDay d)
    rw [addDays]
    omega

/-! ## Claim C7 -/

/-- C7: the date-equivalence predicate validates the spec's five test
vectors — equivalent("today", today's ISO date), equivalent("next week",
today+7 ISO), ¬equivalent("2025-01-01", "2025-01-02"), equivalent(None,
None), ¬equivalent(None, "today") — and the structural laws: a well-formed
ISO string passes through normalization unchanged, exactly-one-side
normalization compares as different, and the neither-side case falls back to
case-insensitive literal comparison. The reference date is any valid
calendar date with a 4-digit year (≤ 9900 so that relative offsets stay
4-digit). -/
theorem C7_date_equivalence (ref : PDate) (hv : ref.valid = true)
    (hy1 : 1000 ≤ ref.year) (hy2 : ref.year ≤ 9900) :
    dates_are_equivalent ref (some "today") (some (toIso ref)) = true ∧
    dates_are_equivalent ref (some "next week") (some (toIso (addDays ref 7))) = true ∧
    dates_are_equivalent ref (some "2025-01-01") (some "2025-01-02") = false ∧
    dates_are_equivalent ref none none = true ∧
    dates_are_equivalent ref none (some "today") = false ∧
    (∀ d : PDate, d.valid = true → 1000 ≤ d.year → d.year ≤ 9999 →
      normalize_date_for_comparison ref (some (toIso d)) = some (toIso d)) ∧
    (∀ s1 s2 : String, pyFalsyStr s1 = false → pyFalsyStr s2 = false →
      (normalize_date_for_comparison ref (some s1)).isSome = true →
      normalize_date_for_comparison ref (some s2) = none →
      dates_are_equivalent ref (some s1) (some s2) = false) ∧
    (∀ s1 s2 : String, pyFalsyStr s1 = false → pyFalsyStr s2 = false →
      normalize_date_for_comparison ref (some s1) = none →
      normalize_date_for_comparison ref (some s2) = none →
      dates_are_equivalent ref (some s1) (some s2)
        = (stripLower s1 == stripLower s2)) := by
  have h7v : (addDays ref 7).valid = true := addDays_valid hv 7
  have h7b := addDays_year_bounds ref 7
  refine ⟨?_, ?_, by rfl, by rfl, by rfl, ?_, ?_, ?_⟩
  · have hn1 : normalize_date_for_comparison ref (some "today")
        = some (toIso ref) := rfl
    have hn2 := normalize_toIso ref ref hv hy1 (by omega)
    have hf1 : pyFalsyStr "today" = false := rfl
    simp [dates_are_equivalent, hn1, hn2, pyFalsyOpt, hf1, pyFalsyStr_toIso]
  · have hn1 : normalize_date_for_comparison ref (some "next week")
        = some (toIso (addDays ref 7)) := rfl
    have hn2 := normalize_toIso ref (addDays ref 7) h7v (by omega) (by omega)
    have hf1 : pyFalsyStr "next week" = false := rfl
    simp [dates_are_equivalent, hn1, hn2, pyFalsyOpt, hf1, pyFalsyStr_toIso]
  · intro d hdv hd1 hd2
    exact normalize_toIso ref d hdv hd1 hd2
  · intro s1 s2 hf1 hf2 hn1 hn2
    obtain ⟨a, ha⟩ := Option.isSome_iff_exists.mp hn1
    simp [dates_are_equivalent, pyFalsyOpt, hf1, hf2, ha, hn2]
  · intro s1 s2 hf1 hf2 hn1 hn2
    simp [dates_are_equivalent, pyFalsyOpt, hf1, hf2, hn1, hn2]

/-- Witness for C7: the five spec vectors at the concrete reference date
2025-03-10. -/
theorem C7_date_equivalence_witness :
    (⟨2025, 3, 10⟩ : PDate).valid = true ∧
    dates_are_equivalent ⟨2025, 3, 10⟩ (some "today")
        (some (toIso ⟨2025, 3, 10⟩)) = true ∧
    dates_are_equivalent ⟨2025, 3, 10⟩ (some "next week")
        (some (toIso (addDays ⟨2025, 3, 10⟩ 7))) = true ∧
    dates_are_equivalent ⟨2025, 3, 10⟩ (some "2025-01-01")
        (some "2025-01-02") = false ∧
    dates_are_equivalent ⟨2025, 3, 10⟩ none none = true ∧
    dates_are_equivalent ⟨2025, 3, 10⟩ none (some "today") = false :=
  ⟨by decide,
   (C7_date_equivalence ⟨2025, 3, 10⟩ (by decide) (by decide) (by decide)).1,
   (C7_date_equivalence ⟨2025, 3, 10⟩ (by decide) (by decide) (by decide)).2.1,
   (C7_date_equivalence ⟨2025, 3, 10⟩ (by decide) (by decide) (by decide)).2.2.1,
   (C7_date_equivalence ⟨2025, 3, 10⟩ (by decide) (by decide) (by decide)).2.2.2.1,
   (C7_date_equivalence ⟨2025, 3, 10⟩ (by decide) (by decide) (by decide)).2.2.2.2.1⟩

/-! ## RateLimiter lemmas (claim C9) -/

theorem dropWhile_cons_head {p : ℚ → Bool} :
    ∀ {l x : List ℚ} {c : ℚ}, l.dropWhile p = c :: x → p c = false := by
  intro l
  induction l with
  | nil => intro x c h; simp at h
  | cons a as ih =>
    intro x c h
    rw [List.dropWhile_cons] at h
    by_cases hp : p a = true
    · rw [if_pos hp] at h
      exact ih h
    · rw [if_neg hp] at h
      cases h
      rw [Bool.not_eq_true] at hp
      exact hp

theorem mem_evictOld_ge {period now : ℚ} :
    ∀ {l : List ℚ}, l.Pairwise (· ≤ ·) →
      ∀ t ∈ evictOld period now l, now - period ≤ t := by
  intro l
  induction l with
  | nil => intro _ t ht; simp [evictOld] at ht
  | cons x xs ih =>
    intro hs t ht
    rcases List.pairwise_cons.mp hs with ⟨hx, hxs⟩
    unfold evictOld at ht
    rw [List.dropWhile_cons] at ht
    by_cases hp : x < now - period
    · rw [if_pos (by simpa using hp)] at ht
      exact ih hxs t ht
    · rw [if_neg (by simpa using hp)] at ht
      rcases List.mem_cons.mp ht with rfl | ht
      · linarith [not_lt.mp hp]
      · linarith [not_lt.mp hp, hx t ht]

theorem waitAux_succ (maxCalls : Nat) (period : ℚ) (fuel : Nat)
    (calls : List ℚ) (now : ℚ) :
    waitAux maxCalls period (fuel + 1) calls now =
      if maxCalls ≤ (evictOld period now calls).length then
        match evictOld period now calls with
        | [] => none
        | c0 :: _ =>
          if 0 < period - (now - c0) + 1 / 10 then
            waitAux maxCalls period fuel (evictOld period now calls)
              (now + (period - (now - c0) + 1 / 10))
          else some (evictOld period now calls ++ [now], now)
      else some (evictOld period now calls ++ [now], now) := by
  rw [waitAux]

theorem waitAux_spec (maxCalls : Nat) (period : ℚ) (hpos : 0 < maxCalls) :
    ∀ (fuel : Nat) (calls : List ℚ) (now : ℚ),
      (evictOld period now calls).length < fuel →
      calls.Pairwise (· ≤ ·) →
      (∀ t ∈ calls, t ≤ now) →
      ∃ q now', waitAux maxCalls period fuel calls now = some (q, now') ∧
        now ≤ now' ∧
        (∃ s, q = s ++ [now'] ∧ s.Sublist calls ∧ s.length < maxCalls ∧
          ∀ t ∈ s, now' - period ≤ t) ∧
        (maxCalls ≤ (evictOld period now calls).length → now < now') := by
  intro fuel
  induction fuel with
  | zero => intro calls now hlt _ _; exact absurd hlt (Nat.not_lt_zero _)
  | succ fuel ih =>
    intro calls now hlt hsort hpast
    by_cases hlim : maxCalls ≤ (evictOld period now calls).length
    · cases hc : evictOld period now calls with
      | nil => rw [hc] at hlim; simp at hlim; omega
      | cons c0 rest =>
        have hc0 : ¬ (c0 < now - period) := by
          have := dropWhile_cons_head (p := fun t => decide (t < now - period)) hc
          simpa using this
        have hsleep : 0 < period - (now - c0) + 1 / 10 := by
          have h1 : now - period ≤ c0 := by linarith [not_lt.mp hc0]
          linarith
        have hstep : waitAux maxCalls period (fuel + 1) calls now
            = waitAux maxCalls period fuel (c0 :: rest)
                (now + (period - (now - c0) + 1 / 10)) := by
          rw [waitAux_succ, hc, if_pos (hc ▸ hlim)]
          show (if 0 < period - (now - c0) + 1 / 10 then
              waitAux maxCalls period fuel (c0 :: rest)
                (now + (period - (now - c0) + 1 / 10))
            else some ((c0 :: rest) ++ [now], now)) = _
          rw [if_pos hsleep]
        have hsub0 : (c0 :: rest).Sublist calls :=
          hc ▸ List.dropWhile_sublist (fun t => decide (t < now - period))
        have hsort' : (c0 :: rest).Pairwise (· ≤ (· : ℚ)) :=
          List.Pairwise.sublist hsub0 hsort
        have hpast' : ∀ t ∈ (c0 :: rest), t ≤ now + (period - (now - c0) + 1 / 10) := by
          intro t ht
          have h1 : t ≤ now := hpast t (List.Sublist.mem ht hsub0)
          linarith
        have hevict2 : evictOld period (now + (period - (now - c0) + 1 / 10)) (c0 :: rest)
            = evictOld period (now + (period - (now - c0) + 1 / 10)) rest := by
          unfold evictOld
          rw [List.dropWhile_cons, if_pos (by simp; linarith)]
        have hlen2 : (evictOld period (now + (period - (now - c0) + 1 / 10)) (c0 :: rest)).length < fuel := by
          rw [hevict2]
          have h1 : (evictOld period (now + (period - (now - c0) + 1 / 10)) rest).length ≤ rest.length :=
            (List.dropWhile_sublist _).length_le
          have h2 : (c0 :: rest).length < fuel + 1 := by rw [← hc]; exact hlt
          simp only [List.length_cons] at h2
          omega
        obtain ⟨q, now', heq, hnow, ⟨s, hq, hsub, hslen, hwin⟩, _⟩ :=
          ih (c0 :: rest) (now + (period - (now - c0) + 1 / 10)) hlen2 hsort' hpast'
        refine ⟨q, now', by rw [hstep]; exact heq, by linarith, ?_, ?_⟩
        · refine ⟨s, hq, ?_, hslen, hwin⟩
          exact hsub.trans (hc ▸ List.dropWhile_sublist _)
        · intro _
          linarith
    · refine ⟨evictOld period now calls ++ [now], now, ?_, le_refl _, ?_, ?_⟩
      · rw [waitAux_succ, if_neg hlim]
      · exact ⟨evictOld period now calls, rfl, List.dropWhile_sublist _,
          Nat.lt_of_not_le hlim, mem_evictOld_ge hsort⟩
      · intro h
        exact absurd h hlim

/-! ## Claim C9 -/

/-- C9: for a limiter with positive capacity and a time-ordered queue of
past call timestamps, `wait_if_needed` never fails — it returns an updated
queue and the (possibly delayed) time the call proceeds; the new queue is
the surviving old timestamps (fewer than max_calls, all inside the trailing
window at the return time) plus exactly one new timestamp appended after the
wait resolves, so at most max_calls timestamps are inside any window ending
at the return time; and if the window was full at entry, the call strictly
blocks (returns at a strictly later time, after the oldest entry aged out). -/
theorem C9_rate_limiter (maxCalls : Nat) (period : ℚ) (calls : List ℚ)
    (now : ℚ) (hpos : 0 < maxCalls)
    (hsort : calls.Pairwise (· ≤ ·))
    (hpast : ∀ t ∈ calls, t ≤ now) :
    ∃ q now', wait_if_needed maxCalls period calls now = some (q, now') ∧
      now ≤ now' ∧
      (∃ s, q = s ++ [now'] ∧ s.Sublist calls ∧ s.length < maxCalls ∧
        ∀ t ∈ s, now' - period ≤ t) ∧
      (maxCalls ≤ (evictOld period now calls).length → now < now') := by
  apply waitAux_spec maxCalls period hpos (calls.length + 1) calls now ?_ hsort hpast
  have h := (List.dropWhile_sublist (fun t => decide (t < now - period)) (l := calls)).length_le
  simp only [evictOld]
  omega

/-- Witness for C9: capacity 1, period 1, one call recorded at time 0, next
call arriving at time 1/2 — the limiter blocks it. -/
theorem C9_rate_limiter_witness :
    (0 : Nat) < 1 ∧
    1 ≤ (evictOld 1 (1 / 2) [(0 : ℚ)]).length ∧
    ∃ q now', wait_if_needed 1 1 [(0 : ℚ)] (1 / 2) = some (q, now') ∧
      (1 / 2 : ℚ) ≤ now' ∧
      (∃ s, q = s ++ [now'] ∧ s.Sublist [(0 : ℚ)] ∧ s.length < 1 ∧
        ∀ t ∈ s, now' - 1 ≤ t) ∧
      (1 ≤ (evictOld 1 (1 / 2) [(0 : ℚ)]).length → (1 / 2 : ℚ) < now') :=
  ⟨by decide, by norm_num [evictOld, List.dropWhile],
   C9_rate_limiter 1 1 [(0 : ℚ)] (1 / 2) (by decide)
     (List.pairwise_singleton _ _)
     (by intro t ht; rw [List.mem_singleton] at ht; rw [ht]; norm_num)⟩
